import Mathlib

/-!
The logbuffer: a fixed-capacity circular log of timestamped text lines.

Shallow embedding of `drivers/power/supply/google/logbuffer.c`.

* The two `int` indices are `Int`; the remainder operator of C is `Int.tmod`.
  All index arithmetic of the file happens on values that passed the range
  check of `logbuffer_vlog` or that are compared with such values, so no
  `int` overflows as long as the number of slots fits an `int`.
* The number of slots (`LOG_BUFFER_ENTRIES`, 1024 in the source) is the first
  argument `entries` of every operation, so that small buffers can be
  evaluated; the slot size `LOG_BUFFER_ENTRY_SIZE` is the constant 256.
* A slot is the C string it holds (the bytes before the terminating NUL).
* Clock readings and the expansion of the caller's format string come from
  kernel code outside the file and are inputs of a call.
* The spinlock is not modelled: calls run one after the other. `logbuffer_log`
  hands a non-NULL instance on to `logbuffer_vlog` and is not modelled apart.
-/

namespace Logbuffer

/-- A C string: the bytes before the terminating NUL, one `Char` per byte. -/
abbrev CStr := List Char

/-- Number of slots in the source (`#define LOG_BUFFER_ENTRIES 1024`). -/
def LOG_BUFFER_ENTRIES : Nat := 1024

/-- Size of a slot in bytes, terminator included (`#define LOG_BUFFER_ENTRY_SIZE 256`). -/
def LOG_BUFFER_ENTRY_SIZE : Nat := 256

/-- The fields of `struct logbuffer` the ring algorithm uses. `buffer i` is the
string held by slot `i`, that is at byte offset `i * LOG_BUFFER_ENTRY_SIZE`. -/
structure logbuffer where
  logbuffer_head : Int
  logbuffer_tail : Int
  buffer : Int → CStr

/-- The fields of `struct rtc_time` printed by the UTC line. -/
structure rtc_time where
  tm_sec : Int
  tm_min : Int
  tm_hour : Int
  tm_mday : Int
  tm_mon : Int
  tm_year : Int

/-- The two fields of `struct timespec`. -/
structure timespec where
  tv_sec : Int
  tv_nsec : Int

/-- What the clocks answer during one call of `__logbuffer_log`:
`local_clock()`, `getnstimeofday(&ts)` and `rtc_time_to_tm(ts.tv_sec, &tm)`. -/
structure ClockReading where
  local_clock : Nat
  ts : timespec
  tm : rtc_time

/-- Conversion `%lu` with a minimum field width and a padding character. -/
def fmt_lu (width : Nat) (pad : Char) (n : Nat) : CStr :=
  List.replicate (width - (Nat.toDigits 10 n).length) pad ++ Nat.toDigits 10 n

/-- Conversion `%d` (width 0) and `%0<width>d`. -/
def fmt_d (width : Nat) (x : Int) : CStr :=
  if x < 0 then
    '-' :: (List.replicate (width - 1 - (Nat.toDigits 10 x.natAbs).length) '0'
      ++ Nat.toDigits 10 x.natAbs)
  else
    List.replicate (width - (Nat.toDigits 10 x.natAbs).length) '0'
      ++ Nat.toDigits 10 x.natAbs

/-- The text `"[%5lu.%06lu] "` that opens both kinds of line: `ts_nsec` is the
`u64` of `local_clock()`, `do_div` splits it into seconds and nanoseconds. -/
def mono_stamp (clk : Nat) : CStr :=
  ['['] ++ fmt_lu 5 ' ' ((clk % 2 ^ 64) / 1000000000) ++ ['.']
    ++ fmt_lu 6 '0' (((clk % 2 ^ 64) % 1000000000) / 1000) ++ [']', ' ']

/-- Expansion of `"[%5lu.%06lu] %d-%02d-%02d %02d:%02d:%02d.%09lu UTC"`. -/
def utc_text (c : ClockReading) : CStr :=
  mono_stamp c.local_clock
    ++ fmt_d 0 (c.tm.tm_year + 1900) ++ ['-'] ++ fmt_d 2 (c.tm.tm_mon + 1) ++ ['-']
    ++ fmt_d 2 c.tm.tm_mday ++ [' ']
    ++ fmt_d 2 c.tm.tm_hour ++ [':'] ++ fmt_d 2 c.tm.tm_min ++ [':'] ++ fmt_d 2 c.tm.tm_sec
    ++ ['.'] ++ fmt_lu 9 '0' (c.ts.tv_nsec % 2 ^ 64).toNat ++ [' ', 'U', 'T', 'C']

/-- Expansion of `"[%5lu.%06lu] %s"`. -/
def msg_text (c : ClockReading) (tmpbuffer : CStr) : CStr :=
  mono_stamp c.local_clock ++ tmpbuffer

/-- The string `scnprintf(buf, size, ...)` leaves in `buf` when the format
expands to `text`: at most `size - 1` bytes. -/
def scnprintf (size : Nat) (text : CStr) : CStr :=
  text.take (size - 1)

/-- The string `vsnprintf(buf, size, fmt, args)` leaves in `buf`, where
`expansion` is what `fmt` expands to with `args`; the empty format expands to
nothing whatever the arguments are. -/
def vsnprintf (size : Nat) (fmt : CStr) (expansion : CStr) : CStr :=
  if fmt = [] then [] else expansion.take (size - 1)

/-- Record of one slot store made by `__logbuffer_log`. -/
structure Stored where
  slot : Int
  line : CStr
  utc : Bool
  deriving DecidableEq

/-- The function `__logbuffer_log`: formats one line into slot `logbuffer_head`,
advances the head and, when it meets the tail, the tail. Returns the instance
and the record of the store. -/
def __logbuffer_log (entries : Nat) (inst : logbuffer) (tmpbuffer : CStr)
    (record_utc : Bool) (c : ClockReading) : logbuffer × Stored :=
  let line :=
    if record_utc then scnprintf LOG_BUFFER_ENTRY_SIZE (utc_text c)
    else scnprintf LOG_BUFFER_ENTRY_SIZE (msg_text c tmpbuffer)
  let buffer := fun i => if i = inst.logbuffer_head then line else inst.buffer i
  let head := (inst.logbuffer_head + 1).tmod entries
  let tail :=
    if head = inst.logbuffer_tail then (inst.logbuffer_tail + 1).tmod entries
    else inst.logbuffer_tail
  (logbuffer.mk head tail buffer, Stored.mk inst.logbuffer_head line record_utc)

/-- Outcome of one call of `logbuffer_vlog`: the instance, the global
`suspend_since_last_logged`, and the stores made, in the order made. -/
structure VlogResult where
  inst : logbuffer
  suspend_since_last_logged : Bool
  stored : List Stored

/-- The function `logbuffer_vlog`. `fmt` is the format pointer (`none` for
NULL), `expansion` the text the format expands to with the caller's arguments;
`c1` is the clock reading of the first call of `__logbuffer_log` and `c2` that
of the second. -/
def logbuffer_vlog (entries : Nat) (inst : logbuffer) (suspend_since_last_logged : Bool)
    (fmt : Option CStr) (expansion : CStr) (c1 c2 : ClockReading) : VlogResult :=
  let tmpbuffer := vsnprintf LOG_BUFFER_ENTRY_SIZE (fmt.getD []) expansion
  if inst.logbuffer_head < 0 ∨ inst.logbuffer_head ≥ (entries : Int) then
    VlogResult.mk inst suspend_since_last_logged []
  else if inst.logbuffer_head = inst.logbuffer_tail
      ∨ inst.logbuffer_head = (entries : Int) - 1 then
    let r1 := __logbuffer_log entries inst tmpbuffer true c1
    let r2 := __logbuffer_log entries r1.1 tmpbuffer false c2
    VlogResult.mk r2.1 suspend_since_last_logged [r1.2, r2.2]
  else if suspend_since_last_logged then
    let r1 := __logbuffer_log entries inst tmpbuffer true c1
    let r2 := __logbuffer_log entries r1.1 tmpbuffer false c2
    VlogResult.mk r2.1 false [r1.2, r2.2]
  else if fmt = none ∨ fmt = some [] then
    VlogResult.mk inst suspend_since_last_logged []
  else
    let r := __logbuffer_log entries inst tmpbuffer false c1
    VlogResult.mk r.1 suspend_since_last_logged [r.2]

/-- The loop of `logbuffer_seq_show`, with the local `tail` and the records
printed so far. Every iteration prints slot `tail` with `"%s\n"`. `none` when
the fuel runs out before `tail` meets the head, or when `tail` points outside
the buffer (a read outside the allocation). -/
def seq_show_loop (entries : Nat) (inst : logbuffer) :
    Nat → Int → List CStr → Option (List CStr)
  | 0, tail, out => if tail ≠ inst.logbuffer_head then none else some out
  | fuel + 1, tail, out =>
    if tail ≠ inst.logbuffer_head then
      if tail < 0 ∨ tail ≥ (entries : Int) then none
      else seq_show_loop entries inst fuel ((tail + 1).tmod entries)
        (out ++ [inst.buffer tail ++ ['\n']])
    else some out

/-- The function `logbuffer_seq_show`: the instance after the call (no field
is assigned) and the records handed to the seq_file, oldest first. -/
def logbuffer_seq_show (entries : Nat) (fuel : Nat) (inst : logbuffer) :
    Option (logbuffer × List CStr) :=
  (seq_show_loop entries inst fuel inst.logbuffer_tail []).map (fun out => (inst, out))

/-- The function `logbuffer_suspend`: sets the global flag. -/
def logbuffer_suspend (_suspend_since_last_logged : Bool) : Bool := true

/-- The instance `logbuffer_register` returns on success: `kzalloc` zeroes the
indices and `vzalloc` zeroes every slot. -/
def logbuffer_register : logbuffer :=
  logbuffer.mk 0 0 (fun _ => [])

/-- Snapshot as the spec words it: slots tail, tail+1, ..., head-1, indices mod capacity. -/
def snapshot_spec (entries : Nat) (inst : logbuffer) : List CStr :=
  (List.range ((inst.logbuffer_head - inst.logbuffer_tail) % (entries : Int)).toNat).map
    (fun (j : Nat) => inst.buffer ((inst.logbuffer_tail + (j : Int)) % (entries : Int)))

/-- The global state of the file next to one instance of the buffer. -/
structure Sys where
  inst : logbuffer
  suspend_since_last_logged : Bool

/-- An entry point of the file called on the instance: `logbuffer_log` (which
hands on to `logbuffer_vlog`), a read of the device node (`logbuffer_seq_show`)
or the syscore suspend hook (`logbuffer_suspend`). -/
inductive Op where
  | log (fmt : Option CStr) (expansion : CStr) (c1 c2 : ClockReading)
  | seq_show
  | suspend

/-- One call: the state after it and the stores it made. -/
def step (entries : Nat) (s : Sys) : Op → Sys × List Stored
  | Op.log fmt expansion c1 c2 =>
    (Sys.mk (logbuffer_vlog entries s.inst s.suspend_since_last_logged fmt expansion c1 c2).inst
        (logbuffer_vlog entries s.inst s.suspend_since_last_logged fmt expansion c1 c2).suspend_since_last_logged,
      (logbuffer_vlog entries s.inst s.suspend_since_last_logged fmt expansion c1 c2).stored)
  | Op.seq_show =>
    match logbuffer_seq_show entries entries s.inst with
    | some p => (Sys.mk p.1 s.suspend_since_last_logged, [])
    | none => (s, [])
  | Op.suspend => (Sys.mk s.inst (logbuffer_suspend s.suspend_since_last_logged), [])

/-- A sequence of calls, one after the other: the final state and all the
stores made, oldest first. -/
def run (entries : Nat) : Sys → List Op → Sys × List Stored
  | s, [] => (s, [])
  | s, op :: ops =>
    ((run entries (step entries s op).1 ops).1,
      (step entries s op).2 ++ (run entries (step entries s op).1 ops).2)

/-- The invariant of the ring: both indices are slot indices, and the slots
from the tail up to the head hold the last `entries - 1` lines of the stores
`hist` made so far (all of them while there are fewer). -/
def RingInv (entries : Nat) (inst : logbuffer) (hist : List Stored) : Prop :=
  0 ≤ inst.logbuffer_head ∧ inst.logbuffer_head < (entries : Int)
    ∧ 0 ≤ inst.logbuffer_tail ∧ inst.logbuffer_tail < (entries : Int)
    ∧ snapshot_spec entries inst
        = (hist.map Stored.line).drop (hist.length - (entries - 1))

/-- A clock reading with every field zero (1900-01-00 on the calendar side). -/
def clock_zero : ClockReading :=
  ClockReading.mk 0 (timespec.mk 0 0) (rtc_time.mk 0 0 0 0 0 0)

/-- An instance of 4 slots whose readable window wraps: head = 1, tail = 2,
slots 0, 1, 2, 3 holding "a", "b", "c", "d". -/
def wrapped_example : logbuffer :=
  logbuffer.mk 1 2
    (fun i => if i = 0 then ['a'] else if i = 1 then ['b'] else if i = 2 then ['c'] else ['d'])

/-- The five calls `logbuffer_log(inst, "a")`, ..., `logbuffer_log(inst, "e")`,
every clock reading zero. -/
def writes_abcde : List Op :=
  [Op.log (some ['a']) ['a'] clock_zero clock_zero,
   Op.log (some ['b']) ['b'] clock_zero clock_zero,
   Op.log (some ['c']) ['c'] clock_zero clock_zero,
   Op.log (some ['d']) ['d'] clock_zero clock_zero,
   Op.log (some ['e']) ['e'] clock_zero clock_zero]

/-- Whether a call is a write (`logbuffer_log`). -/
def Op.is_log : Op → Bool
  | Op.log _ _ _ _ => true
  | Op.seq_show => false
  | Op.suspend => false

/-- The number of oldest lines dropped while `k` lines are stored one after the
other, in the words of the spec: after each store the head advances by one
modulo the capacity, and when the advanced head equals the tail the tail
advances by one modulo the capacity, which drops one line. -/
def dropped_entries (entries : Nat) : Nat → Int → Int → Nat
  | 0, _, _ => 0
  | k + 1, head, tail =>
    if (head + 1) % (entries : Int) = tail then
      1 + dropped_entries entries k ((head + 1) % (entries : Int)) ((tail + 1) % (entries : Int))
    else dropped_entries entries k ((head + 1) % (entries : Int)) tail

/-- The five calls `logbuffer_log(inst, "a")`, ..., `logbuffer_log(inst, "e")`
with arbitrary clock readings: two per call, of which a call that stores one
line uses the first only. -/
def writes_abcde_at (a1 a2 b1 b2 c1 c2 d1 d2 e1 e2 : ClockReading) : List Op :=
  [Op.log (some ['a']) ['a'] a1 a2,
   Op.log (some ['b']) ['b'] b1 b2,
   Op.log (some ['c']) ['c'] c1 c2,
   Op.log (some ['d']) ['d'] d1 d2,
   Op.log (some ['e']) ['e'] e1 e2]

theorem tmod_succ_of_range (h n : Int) (h0 : 0 ≤ h) (h1 : h < n) :
    (h + 1 = n ∧ (h + 1).tmod n = 0) ∨ (h + 1 < n ∧ (h + 1).tmod n = h + 1) := by
  rw [Int.tmod_eq_emod (by omega) (by omega)]
  by_cases e : h + 1 = n
  · left
    refine ⟨e, ?_⟩
    rw [e]; exact Int.emod_self
  · right
    exact ⟨by omega, Int.emod_eq_of_lt (by omega) (by omega)⟩

theorem emod_window (x n : Int) (hl : -n ≤ x) (hu : x < 2 * n) :
    (x < 0 ∧ x % n = x + n) ∨ (0 ≤ x ∧ x < n ∧ x % n = x) ∨ (n ≤ x ∧ x % n = x - n) := by
  by_cases h1 : x < 0
  · left
    refine ⟨h1, ?_⟩
    rw [← Int.add_emod_self]
    exact Int.emod_eq_of_lt (by omega) (by omega)
  · by_cases h2 : x < n
    · right; left
      exact ⟨by omega, h2, Int.emod_eq_of_lt (by omega) h2⟩
    · right; right
      refine ⟨by omega, ?_⟩
      have e : x = (x - n) + n := by omega
      conv_lhs => rw [e]
      rw [Int.add_emod_self]
      exact Int.emod_eq_of_lt (by omega) (by omega)

theorem seq_show_loop_eq (n : Nat) (inst : logbuffer)
    (hh0 : 0 ≤ inst.logbuffer_head) (hh1 : inst.logbuffer_head < (n : Int)) :
    ∀ (fuel : Nat) (t : Int) (out : List CStr), 0 ≤ t → t < (n : Int) →
      ((inst.logbuffer_head - t) % (n : Int)).toNat ≤ fuel →
      seq_show_loop n inst fuel t out =
        some (out ++ (List.range ((inst.logbuffer_head - t) % (n : Int)).toNat).map
          (fun (j : Nat) => inst.buffer ((t + (j : Int)) % (n : Int)) ++ ['\n'])) := by
  intro fuel
  induction fuel with
  | zero =>
    intro t out ht0 ht1 hd
    have hw := emod_window (inst.logbuffer_head - t) n (by omega) (by omega)
    have hte : t = inst.logbuffer_head := by omega
    subst hte
    simp [seq_show_loop]
  | succ fuel ih =>
    intro t out ht0 ht1 hd
    by_cases hte : t = inst.logbuffer_head
    · subst hte
      simp [seq_show_loop]
    · have hw := emod_window (inst.logbuffer_head - t) n (by omega) (by omega)
      have hs := tmod_succ_of_range t n ht0 ht1
      have ht' : 0 ≤ (t + 1).tmod (n : Int) ∧ (t + 1).tmod (n : Int) < (n : Int) := by
        omega
      have hw' := emod_window (inst.logbuffer_head - (t + 1).tmod (n : Int)) n
        (by omega) (by omega)
      have hd' : ((inst.logbuffer_head - t) % (n : Int)).toNat
          = ((inst.logbuffer_head - (t + 1).tmod (n : Int)) % (n : Int)).toNat + 1 := by
        omega
      have hrec := ih ((t + 1).tmod (n : Int)) (out ++ [inst.buffer t ++ ['\n']])
        ht'.1 ht'.2 (by omega)
      have hnot : ¬ (t < 0 ∨ t ≥ (n : Int)) := by omega
      rw [seq_show_loop, if_pos hte, if_neg hnot, hrec, hd', List.range_succ_eq_map]
      have hshift : ∀ j : Nat, ((t + 1).tmod (n : Int) + (j : Int)) % (n : Int)
          = (t + ((j + 1 : Nat) : Int)) % (n : Int) := by
        intro j
        rw [Int.tmod_eq_emod (by omega) (by omega), Int.emod_add_emod]
        congr 1
        push_cast
        ring
      have h0 : (t + ((0 : Nat) : Int)) % (n : Int) = t := by
        simp [Int.emod_eq_of_lt ht0 ht1]
      simp only [List.map_cons, List.map_map, h0, List.append_assoc, List.singleton_append,
        Function.comp_def, Nat.succ_eq_add_one, hshift]


theorem snapshot_spec_length (n : Nat) (inst : logbuffer) :
    (snapshot_spec n inst).length
      = ((inst.logbuffer_head - inst.logbuffer_tail) % (n : Int)).toNat := by
  simp [snapshot_spec]

theorem slot_ne_head (n : Int) (h t : Int) (j : Nat) (hh0 : 0 ≤ h) (hh1 : h < n)
    (ht0 : 0 ≤ t) (ht1 : t < n) (hj : j < ((h - t) % n).toNat) : (t + (j : Int)) % n ≠ h := by
  have hw := emod_window (h - t) n (by omega) (by omega)
  have hw' := emod_window (t + (j : Int)) n (by omega) (by omega)
  omega

theorem slot_eq_head (n : Int) (h t : Int) (hh0 : 0 ≤ h) (hh1 : h < n)
    (ht0 : 0 ≤ t) (ht1 : t < n) : (t + (((h - t) % n).toNat : Int)) % n = h := by
  have hw := emod_window (h - t) n (by omega) (by omega)
  have hw' := emod_window (t + (((h - t) % n).toNat : Int)) n (by omega) (by omega)
  omega

/-- One store appends its line to the readable window and, when the window
already holds `entries - 1` lines, drops the oldest one. -/
theorem snapshot_spec_log (n : Nat) (inst : logbuffer) (tmp : CStr) (u : Bool)
    (c : ClockReading)
    (hh0 : 0 ≤ inst.logbuffer_head) (hh1 : inst.logbuffer_head < (n : Int))
    (ht0 : 0 ≤ inst.logbuffer_tail) (ht1 : inst.logbuffer_tail < (n : Int)) :
    snapshot_spec n (__logbuffer_log n inst tmp u c).1
      = (snapshot_spec n inst ++ [(__logbuffer_log n inst tmp u c).2.line]).drop
          ((snapshot_spec n inst).length + 1 - (n - 1)) := by
  have hs := tmod_succ_of_range inst.logbuffer_head n hh0 hh1
  have hst := tmod_succ_of_range inst.logbuffer_tail n ht0 ht1
  have hw := emod_window (inst.logbuffer_head - inst.logbuffer_tail) n (by omega) (by omega)
  apply List.ext_getElem
  · simp only [snapshot_spec_length, List.length_drop, List.length_append, List.length_singleton]
    simp only [__logbuffer_log]
    split
    · next e =>
      have hw' := emod_window ((inst.logbuffer_head + 1).tmod (n : Int)
        - (inst.logbuffer_tail + 1).tmod (n : Int)) n (by omega) (by omega)
      omega
    · next e =>
      have hw' := emod_window ((inst.logbuffer_head + 1).tmod (n : Int)
        - inst.logbuffer_tail) n (by omega) (by omega)
      omega
  · intro j h1 h2
    rw [List.getElem_drop]
    simp only [snapshot_spec_length, List.length_drop, List.length_append,
      List.length_singleton] at h1 h2
    simp only [snapshot_spec, List.getElem_map, List.getElem_range, List.getElem_append,
      List.length_map, List.length_range]
    have key : ((__logbuffer_log n inst tmp u c).1.logbuffer_tail + (j : Int)) % (n : Int)
          = (inst.logbuffer_tail + ((((inst.logbuffer_head - inst.logbuffer_tail) % (n : Int)).toNat
              + 1 - (n - 1) + j : Nat) : Int)) % (n : Int)
        ∧ ((inst.logbuffer_head - inst.logbuffer_tail) % (n : Int)).toNat + 1 - (n - 1) + j
          ≤ ((inst.logbuffer_head - inst.logbuffer_tail) % (n : Int)).toNat := by
      simp only [__logbuffer_log] at h1 ⊢
      split at h1
      · next e =>
        rw [if_pos e]
        have hk : ((inst.logbuffer_head - inst.logbuffer_tail) % (n : Int)).toNat
            + 1 - (n - 1) + j = j + 1 := by omega
        rw [hk]
        refine ⟨?_, by omega⟩
        rw [Int.tmod_eq_emod (by omega) (by omega), Int.emod_add_emod]
        congr 1
        push_cast
        ring
      · next e =>
        rw [if_neg e]
        have hk : ((inst.logbuffer_head - inst.logbuffer_tail) % (n : Int)).toNat
            + 1 - (n - 1) + j = j := by omega
        rw [hk]
        exact ⟨rfl, by omega⟩
    rw [key.1]
    simp only [List.getElem_singleton]
    generalize ((inst.logbuffer_head - inst.logbuffer_tail) % (n : Int)).toNat
      + 1 - (n - 1) + j = m at key ⊢
    have hm := key.2
    by_cases hlt : m < ((inst.logbuffer_head - inst.logbuffer_tail) % (n : Int)).toNat
    · have hne := slot_ne_head n inst.logbuffer_head inst.logbuffer_tail m hh0 hh1 ht0 ht1 hlt
      simp only [__logbuffer_log, dif_pos hlt, if_neg hne]
    · have hme : m = ((inst.logbuffer_head - inst.logbuffer_tail) % (n : Int)).toNat := by omega
      have heq := slot_eq_head n inst.logbuffer_head inst.logbuffer_tail hh0 hh1 ht0 ht1
      subst hme
      simp only [__logbuffer_log, heq, ↓reduceIte, dif_neg hlt]

theorem seq_show_eq_spec (n fuel : Nat) (inst : logbuffer)
    (hh0 : 0 ≤ inst.logbuffer_head) (hh1 : inst.logbuffer_head < (n : Int))
    (ht0 : 0 ≤ inst.logbuffer_tail) (ht1 : inst.logbuffer_tail < (n : Int))
    (hf : n ≤ fuel) :
    logbuffer_seq_show n fuel inst
      = some (inst, (snapshot_spec n inst).map (fun l => l ++ ['\n'])) := by
  have hw := emod_window (inst.logbuffer_head - inst.logbuffer_tail) n (by omega) (by omega)
  have h := seq_show_loop_eq n inst hh0 hh1 fuel inst.logbuffer_tail [] ht0 ht1 (by omega)
  simp only [logbuffer_seq_show, h, Option.map_some', snapshot_spec, List.nil_append,
    List.map_map, Function.comp_def]

theorem snapshot_spec_lt (n : Nat) (inst : logbuffer)
    (hh0 : 0 ≤ inst.logbuffer_head) (hh1 : inst.logbuffer_head < (n : Int))
    (ht0 : 0 ≤ inst.logbuffer_tail) (ht1 : inst.logbuffer_tail < (n : Int)) :
    (snapshot_spec n inst).length < n := by
  have hw := emod_window (inst.logbuffer_head - inst.logbuffer_tail) n (by omega) (by omega)
  rw [snapshot_spec_length]
  omega

theorem drop_snoc_window {α : Type} (L W : List α) (m : Nat) (x : α)
    (hW : W = L.drop (L.length - m)) :
    (W ++ [x]).drop (W.length + 1 - m) = (L ++ [x]).drop ((L ++ [x]).length - m) := by
  subst hW
  simp only [List.length_drop, List.length_append, List.length_singleton]
  by_cases h : L.length < m
  · have e1 : L.length - m = 0 := by omega
    have e3 : L.length + 1 - m = 0 := by omega
    simp only [e1, e3, Nat.sub_zero, List.drop_zero]
  · have e2 : L.length - (L.length - m) + 1 - m = 1 := by omega
    have e3 : L.length + 1 - m = (L.length - m) + 1 := by omega
    rw [e2, e3, ← List.drop_drop, List.drop_append_of_le_length (Nat.sub_le _ _)]

theorem log_range (n : Nat) (inst : logbuffer) (tmp : CStr) (u : Bool) (c : ClockReading)
    (hh0 : 0 ≤ inst.logbuffer_head) (hh1 : inst.logbuffer_head < (n : Int))
    (ht0 : 0 ≤ inst.logbuffer_tail) (ht1 : inst.logbuffer_tail < (n : Int)) :
    0 ≤ (__logbuffer_log n inst tmp u c).1.logbuffer_head
      ∧ (__logbuffer_log n inst tmp u c).1.logbuffer_head < (n : Int)
      ∧ 0 ≤ (__logbuffer_log n inst tmp u c).1.logbuffer_tail
      ∧ (__logbuffer_log n inst tmp u c).1.logbuffer_tail < (n : Int) := by
  have hs := tmod_succ_of_range inst.logbuffer_head n hh0 hh1
  have hst := tmod_succ_of_range inst.logbuffer_tail n ht0 ht1
  simp only [__logbuffer_log]
  split <;> omega

theorem ringInv_log (n : Nat) (inst : logbuffer) (hist : List Stored) (tmp : CStr)
    (u : Bool) (c : ClockReading) (h : RingInv n inst hist) :
    RingInv n (__logbuffer_log n inst tmp u c).1
      (hist ++ [(__logbuffer_log n inst tmp u c).2]) := by
  obtain ⟨hh0, hh1, ht0, ht1, hw⟩ := h
  obtain ⟨a, b, c1, d⟩ := log_range n inst tmp u c hh0 hh1 ht0 ht1
  refine ⟨a, b, c1, d, ?_⟩
  rw [snapshot_spec_log n inst tmp u c hh0 hh1 ht0 ht1]
  have hl : (hist.map Stored.line).length = hist.length := List.length_map _ _
  have := drop_snoc_window (hist.map Stored.line) (snapshot_spec n inst) (n - 1)
    (__logbuffer_log n inst tmp u c).2.line (by rw [hl]; exact hw)
  rw [this]
  simp only [List.map_append, List.map_cons, List.map_nil, List.length_append,
    List.length_map, List.length_singleton]

theorem ringInv_vlog (n : Nat) (inst : logbuffer) (hist : List Stored) (s : Bool)
    (fmt : Option CStr) (ex : CStr) (c1 c2 : ClockReading) (h : RingInv n inst hist) :
    RingInv n (logbuffer_vlog n inst s fmt ex c1 c2).inst
      (hist ++ (logbuffer_vlog n inst s fmt ex c1 c2).stored) := by
  unfold logbuffer_vlog
  simp only
  split_ifs
  · simpa using h
  · have h2 := ringInv_log n _ _ (vsnprintf LOG_BUFFER_ENTRY_SIZE (fmt.getD []) ex) false c2
      (ringInv_log n _ _ (vsnprintf LOG_BUFFER_ENTRY_SIZE (fmt.getD []) ex) true c1 h)
    simpa using h2
  · have h2 := ringInv_log n _ _ (vsnprintf LOG_BUFFER_ENTRY_SIZE (fmt.getD []) ex) false c2
      (ringInv_log n _ _ (vsnprintf LOG_BUFFER_ENTRY_SIZE (fmt.getD []) ex) true c1 h)
    simpa using h2
  · simpa using h
  · exact ringInv_log n _ _ (vsnprintf LOG_BUFFER_ENTRY_SIZE (fmt.getD []) ex) false c1 h

theorem seq_show_inst (n fuel : Nat) (inst : logbuffer) (p : logbuffer × List CStr)
    (h : logbuffer_seq_show n fuel inst = some p) : p.1 = inst := by
  simp only [logbuffer_seq_show, Option.map_eq_some'] at h
  obtain ⟨out, _, e⟩ := h
  rw [← e]

theorem ringInv_step (n : Nat) (s : Sys) (hist : List Stored) (op : Op)
    (h : RingInv n s.inst hist) :
    RingInv n (step n s op).1.inst (hist ++ (step n s op).2) := by
  cases op with
  | log fmt ex c1 c2 => exact ringInv_vlog n s.inst hist _ fmt ex c1 c2 h
  | seq_show =>
    simp only [step]
    split
    · next p e =>
      have := seq_show_inst n n s.inst p e
      simpa [this] using h
    · simpa using h
  | suspend => simpa [step] using h

theorem ringInv_run (n : Nat) (ops : List Op) :
    ∀ (s : Sys) (hist : List Stored), RingInv n s.inst hist →
      RingInv n (run n s ops).1.inst (hist ++ (run n s ops).2) := by
  induction ops with
  | nil => intro s hist h; simpa [run] using h
  | cons op ops ih =>
    intro s hist h
    have h1 := ih (step n s op).1 (hist ++ (step n s op).2) (ringInv_step n s hist op h)
    simpa [run, List.append_assoc] using h1

theorem ringInv_register (n : Nat) (hn : 0 < n) : RingInv n logbuffer_register [] := by
  refine ⟨by simp [logbuffer_register], by simpa [logbuffer_register] using hn,
    by simp [logbuffer_register], by simpa [logbuffer_register] using hn, ?_⟩
  simp [snapshot_spec, logbuffer_register]

theorem vlog_abort (n : Nat) (inst : logbuffer) (s : Bool) (fmt : Option CStr) (ex : CStr)
    (c1 c2 : ClockReading)
    (h : inst.logbuffer_head < 0 ∨ inst.logbuffer_head ≥ (n : Int)) :
    logbuffer_vlog n inst s fmt ex c1 c2 = VlogResult.mk inst s [] := by
  simp only [logbuffer_vlog, if_pos h]

theorem vlog_framed (n : Nat) (inst : logbuffer) (s : Bool) (fmt : Option CStr) (ex : CStr)
    (c1 c2 : ClockReading)
    (hh0 : 0 ≤ inst.logbuffer_head) (hh1 : inst.logbuffer_head < (n : Int))
    (ht : inst.logbuffer_head = inst.logbuffer_tail
      ∨ inst.logbuffer_head = (n : Int) - 1 ∨ s = true) :
    logbuffer_vlog n inst s fmt ex c1 c2
      = VlogResult.mk
          (__logbuffer_log n
            (__logbuffer_log n inst (vsnprintf LOG_BUFFER_ENTRY_SIZE (fmt.getD []) ex) true c1).1
            (vsnprintf LOG_BUFFER_ENTRY_SIZE (fmt.getD []) ex) false c2).1
          (if inst.logbuffer_head = inst.logbuffer_tail
              ∨ inst.logbuffer_head = (n : Int) - 1 then s else false)
          [(__logbuffer_log n inst (vsnprintf LOG_BUFFER_ENTRY_SIZE (fmt.getD []) ex) true c1).2,
           (__logbuffer_log n
            (__logbuffer_log n inst (vsnprintf LOG_BUFFER_ENTRY_SIZE (fmt.getD []) ex) true c1).1
            (vsnprintf LOG_BUFFER_ENTRY_SIZE (fmt.getD []) ex) false c2).2] := by
  have hn : ¬ (inst.logbuffer_head < 0 ∨ inst.logbuffer_head ≥ (n : Int)) := by omega
  by_cases hb : inst.logbuffer_head = inst.logbuffer_tail
      ∨ inst.logbuffer_head = (n : Int) - 1
  · simp only [logbuffer_vlog, if_neg hn, if_pos hb]
  · have hs : s = true := by tauto
    simp only [logbuffer_vlog, if_neg hn, if_neg hb, hs, if_true]

theorem vlog_plain (n : Nat) (inst : logbuffer) (fmt : Option CStr) (ex : CStr)
    (c1 c2 : ClockReading)
    (hh0 : 0 ≤ inst.logbuffer_head) (hh1 : inst.logbuffer_head < (n : Int))
    (hne : inst.logbuffer_head ≠ inst.logbuffer_tail)
    (hl : inst.logbuffer_head ≠ (n : Int) - 1)
    (hf1 : fmt ≠ none) (hf2 : fmt ≠ some []) :
    logbuffer_vlog n inst false fmt ex c1 c2
      = VlogResult.mk
          (__logbuffer_log n inst (vsnprintf LOG_BUFFER_ENTRY_SIZE (fmt.getD []) ex) false c1).1
          false
          [(__logbuffer_log n inst (vsnprintf LOG_BUFFER_ENTRY_SIZE (fmt.getD []) ex) false c1).2]
    := by
  have hn : ¬ (inst.logbuffer_head < 0 ∨ inst.logbuffer_head ≥ (n : Int)) := by omega
  have hb : ¬ (inst.logbuffer_head = inst.logbuffer_tail
      ∨ inst.logbuffer_head = (n : Int) - 1) := by tauto
  have hf : ¬ (fmt = none ∨ fmt = some []) := by tauto
  simp only [logbuffer_vlog, if_neg hn, if_neg hb, if_neg hf, Bool.false_eq_true, if_false]

theorem vlog_skip (n : Nat) (inst : logbuffer) (fmt : Option CStr) (ex : CStr)
    (c1 c2 : ClockReading)
    (hne : inst.logbuffer_head ≠ inst.logbuffer_tail)
    (hl : inst.logbuffer_head ≠ (n : Int) - 1)
    (hf : fmt = none ∨ fmt = some []) :
    logbuffer_vlog n inst false fmt ex c1 c2 = VlogResult.mk inst false [] := by
  have hb : ¬ (inst.logbuffer_head = inst.logbuffer_tail
      ∨ inst.logbuffer_head = (n : Int) - 1) := by tauto
  by_cases hn : inst.logbuffer_head < 0 ∨ inst.logbuffer_head ≥ (n : Int)
  · simp only [logbuffer_vlog, if_pos hn]
  · simp only [logbuffer_vlog, if_neg hn, if_neg hb, if_pos hf, Bool.false_eq_true, if_false]

theorem log_head_ne_tail (n : Nat) (inst : logbuffer) (tmp : CStr) (u : Bool)
    (c : ClockReading) (h2 : 2 ≤ n)
    (hh0 : 0 ≤ inst.logbuffer_head) (hh1 : inst.logbuffer_head < (n : Int)) :
    (__logbuffer_log n inst tmp u c).1.logbuffer_head
      ≠ (__logbuffer_log n inst tmp u c).1.logbuffer_tail := by
  have hs := tmod_succ_of_range inst.logbuffer_head n hh0 hh1
  simp only [__logbuffer_log]
  split
  · next e =>
    have ht0 : 0 ≤ inst.logbuffer_tail := by omega
    have ht1 : inst.logbuffer_tail < (n : Int) := by omega
    have hst := tmod_succ_of_range inst.logbuffer_tail n ht0 ht1
    omega
  · next e => exact e

theorem log_stored (n : Nat) (inst : logbuffer) (tmp : CStr) (u : Bool) (c : ClockReading) :
    (__logbuffer_log n inst tmp u c).2
      = Stored.mk inst.logbuffer_head
          (if u then scnprintf LOG_BUFFER_ENTRY_SIZE (utc_text c)
            else scnprintf LOG_BUFFER_ENTRY_SIZE (msg_text c tmp)) u := rfl

theorem log_head (n : Nat) (inst : logbuffer) (tmp : CStr) (u : Bool) (c : ClockReading)
    (hh0 : 0 ≤ inst.logbuffer_head) (_hh1 : inst.logbuffer_head < (n : Int)) :
    (__logbuffer_log n inst tmp u c).1.logbuffer_head
      = (inst.logbuffer_head + 1) % (n : Int) := by
  simp only [__logbuffer_log]
  exact Int.tmod_eq_emod (by omega) (by omega)

theorem log_buffer_at (n : Nat) (inst : logbuffer) (tmp : CStr) (u : Bool) (c : ClockReading)
    (i : Int) :
    (__logbuffer_log n inst tmp u c).1.buffer i
      = if i = inst.logbuffer_head then
          (if u then scnprintf LOG_BUFFER_ENTRY_SIZE (utc_text c)
            else scnprintf LOG_BUFFER_ENTRY_SIZE (msg_text c tmp))
        else inst.buffer i := rfl

theorem log_tail_out (n : Nat) (inst : logbuffer) (tmp : CStr) (u : Bool) (c : ClockReading)
    (hh0 : 0 ≤ inst.logbuffer_head) (hh1 : inst.logbuffer_head < (n : Int))
    (ht : inst.logbuffer_tail < 0 ∨ inst.logbuffer_tail ≥ (n : Int)) :
    (__logbuffer_log n inst tmp u c).1.logbuffer_tail = inst.logbuffer_tail := by
  have hs := tmod_succ_of_range inst.logbuffer_head n hh0 hh1
  simp only [__logbuffer_log]
  rw [if_neg (by omega)]

theorem emod_succ_range (h n : Int) (h0 : 0 ≤ h) (h1 : h < n) :
    0 ≤ (h + 1) % n ∧ (h + 1) % n < n := by
  have := emod_window (h + 1) n (by omega) (by omega)
  omega

theorem emod_succ_succ (h n : Int) :
    ((h + 1) % n + 1) % n = (h + 2) % n := by
  rw [Int.emod_add_emod]
  congr 1
  omega

theorem log_range_head (n : Nat) (inst : logbuffer) (tmp : CStr) (u : Bool)
    (c : ClockReading)
    (hh0 : 0 ≤ inst.logbuffer_head) (hh1 : inst.logbuffer_head < (n : Int)) :
    0 ≤ (__logbuffer_log n inst tmp u c).1.logbuffer_head
      ∧ (__logbuffer_log n inst tmp u c).1.logbuffer_head < (n : Int) := by
  rw [log_head n inst tmp u c hh0 hh1]
  exact emod_succ_range _ _ hh0 hh1

theorem vlog_content_count (n : Nat) (inst : logbuffer) (s : Bool) (fmt : Option CStr)
    (ex : CStr) (c1 c2 : ClockReading)
    (hh0 : 0 ≤ inst.logbuffer_head) (hh1 : inst.logbuffer_head < (n : Int))
    (hf1 : fmt ≠ none) (hf2 : fmt ≠ some []) :
    ((logbuffer_vlog n inst s fmt ex c1 c2).stored.filter (fun e => !e.utc)).length = 1 := by
  by_cases ht : inst.logbuffer_head = inst.logbuffer_tail
      ∨ inst.logbuffer_head = (n : Int) - 1 ∨ s = true
  · rw [vlog_framed n inst s fmt ex c1 c2 hh0 hh1 ht]
    simp [log_stored]
  · have hs : s = false := by
      cases s
      · rfl
      · exact absurd (Or.inr (Or.inr rfl)) ht
    subst hs
    rw [vlog_plain n inst fmt ex c1 c2 hh0 hh1 (fun e => ht (Or.inl e))
      (fun e => ht (Or.inr (Or.inl e))) hf1 hf2]
    simp [log_stored]

theorem run_content_count (n : Nat) (ops : List Op) :
    ∀ (s : Sys) (hist : List Stored), RingInv n s.inst hist →
      (∀ op ∈ ops, ∃ fmt ex c1 c2, op = Op.log fmt ex c1 c2 ∧ fmt ≠ none ∧ fmt ≠ some []) →
      ((run n s ops).2.filter (fun e => !e.utc)).length = ops.length := by
  induction ops with
  | nil => intro s hist _ _; simp [run]
  | cons op ops ih =>
    intro s hist h hw
    obtain ⟨fmt, ex, c1, c2, hop, hf1, hf2⟩ := hw op (List.mem_cons_self _ _)
    have hrest := ih (step n s op).1 (hist ++ (step n s op).2) (ringInv_step n s hist op h)
      (fun o ho => hw o (List.mem_cons_of_mem _ ho))
    have hone : ((step n s op).2.filter (fun e => !e.utc)).length = 1 := by
      subst hop
      exact vlog_content_count n s.inst _ fmt ex c1 c2 h.1 h.2.1 hf1 hf2
    simp only [run, List.filter_append, List.length_append, hrest, hone, List.length_cons]
    omega

theorem writes_abcde_nonempty :
    ∀ op ∈ writes_abcde,
      ∃ fmt ex c1 c2, op = Op.log fmt ex c1 c2 ∧ fmt ≠ none ∧ fmt ≠ some [] := by
  intro op hop
  simp only [writes_abcde, List.mem_cons, List.mem_singleton, List.not_mem_nil, or_false] at hop
  rcases hop with h | h | h | h | h <;> subst h <;>
    exact ⟨_, _, _, _, rfl, by simp, by simp⟩

theorem take_append_take {α : Type} (n : Nat) (s e : List α) :
    (s ++ e.take n).take n = (s ++ e).take n := by
  rw [List.take_append_eq_append_take, List.take_append_eq_append_take, List.take_take]
  congr 2
  omega

theorem scnprintf_length (t : CStr) :
    (scnprintf LOG_BUFFER_ENTRY_SIZE t).length ≤ 255 := by
  have h255 : LOG_BUFFER_ENTRY_SIZE - 1 = 255 := by decide
  simp only [scnprintf, List.length_take, h255]
  omega

theorem msg_line_eq (c : ClockReading) (fmt : Option CStr) (ex : CStr) :
    scnprintf LOG_BUFFER_ENTRY_SIZE
        (msg_text c (vsnprintf LOG_BUFFER_ENTRY_SIZE (fmt.getD []) ex))
      = (mono_stamp c.local_clock ++ (if fmt.getD [] = [] then [] else ex)).take 255 := by
  have h255 : LOG_BUFFER_ENTRY_SIZE - 1 = 255 := by decide
  simp only [scnprintf, msg_text, vsnprintf, h255]
  split
  · rfl
  · exact take_append_take _ _ _

theorem vlog_framed_stored (n : Nat) (inst : logbuffer) (s : Bool) (fmt : Option CStr)
    (ex : CStr) (c1 c2 : ClockReading)
    (hh0 : 0 ≤ inst.logbuffer_head) (hh1 : inst.logbuffer_head < (n : Int))
    (ht : inst.logbuffer_head = inst.logbuffer_tail
      ∨ inst.logbuffer_head = (n : Int) - 1 ∨ s = true) :
    (logbuffer_vlog n inst s fmt ex c1 c2).stored
      = [Stored.mk inst.logbuffer_head (scnprintf LOG_BUFFER_ENTRY_SIZE (utc_text c1)) true,
         Stored.mk ((inst.logbuffer_head + 1) % (n : Int))
           (scnprintf LOG_BUFFER_ENTRY_SIZE
             (msg_text c2 (vsnprintf LOG_BUFFER_ENTRY_SIZE (fmt.getD []) ex))) false] := by
  rw [vlog_framed n inst s fmt ex c1 c2 hh0 hh1 ht]
  simp only [log_stored, log_head n inst _ true c1 hh0 hh1, if_true,
    Bool.false_eq_true, if_false]

theorem vlog_framed_buffer (n : Nat) (inst : logbuffer) (s : Bool) (fmt : Option CStr)
    (ex : CStr) (c1 c2 : ClockReading)
    (hh0 : 0 ≤ inst.logbuffer_head) (hh1 : inst.logbuffer_head < (n : Int))
    (ht : inst.logbuffer_head = inst.logbuffer_tail
      ∨ inst.logbuffer_head = (n : Int) - 1 ∨ s = true) (i : Int) :
    (logbuffer_vlog n inst s fmt ex c1 c2).inst.buffer i
      = if i = (inst.logbuffer_head + 1) % (n : Int) then
          scnprintf LOG_BUFFER_ENTRY_SIZE
            (msg_text c2 (vsnprintf LOG_BUFFER_ENTRY_SIZE (fmt.getD []) ex))
        else if i = inst.logbuffer_head then scnprintf LOG_BUFFER_ENTRY_SIZE (utc_text c1)
        else inst.buffer i := by
  rw [vlog_framed n inst s fmt ex c1 c2 hh0 hh1 ht]
  simp only [log_buffer_at, log_head n inst _ true c1 hh0 hh1, if_true,
    Bool.false_eq_true, if_false]

theorem vlog_plain_stored (n : Nat) (inst : logbuffer) (fmt : Option CStr) (ex : CStr)
    (c1 c2 : ClockReading)
    (hh0 : 0 ≤ inst.logbuffer_head) (hh1 : inst.logbuffer_head < (n : Int))
    (hne : inst.logbuffer_head ≠ inst.logbuffer_tail)
    (hl : inst.logbuffer_head ≠ (n : Int) - 1)
    (hf1 : fmt ≠ none) (hf2 : fmt ≠ some []) :
    (logbuffer_vlog n inst false fmt ex c1 c2).stored
      = [Stored.mk inst.logbuffer_head
           (scnprintf LOG_BUFFER_ENTRY_SIZE
             (msg_text c1 (vsnprintf LOG_BUFFER_ENTRY_SIZE (fmt.getD []) ex))) false] := by
  rw [vlog_plain n inst fmt ex c1 c2 hh0 hh1 hne hl hf1 hf2]
  simp only [log_stored, Bool.false_eq_true, if_false]

theorem vlog_plain_buffer (n : Nat) (inst : logbuffer) (fmt : Option CStr) (ex : CStr)
    (c1 c2 : ClockReading)
    (hh0 : 0 ≤ inst.logbuffer_head) (hh1 : inst.logbuffer_head < (n : Int))
    (hne : inst.logbuffer_head ≠ inst.logbuffer_tail)
    (hl : inst.logbuffer_head ≠ (n : Int) - 1)
    (hf1 : fmt ≠ none) (hf2 : fmt ≠ some []) (i : Int) :
    (logbuffer_vlog n inst false fmt ex c1 c2).inst.buffer i
      = if i = inst.logbuffer_head then
          scnprintf LOG_BUFFER_ENTRY_SIZE
            (msg_text c1 (vsnprintf LOG_BUFFER_ENTRY_SIZE (fmt.getD []) ex))
        else inst.buffer i := by
  rw [vlog_plain n inst fmt ex c1 c2 hh0 hh1 hne hl hf1 hf2]
  simp only [log_buffer_at, Bool.false_eq_true, if_false]

theorem log_tail (n : Nat) (inst : logbuffer) (tmp : CStr) (u : Bool) (c : ClockReading)
    (hh0 : 0 ≤ inst.logbuffer_head) (hh1 : inst.logbuffer_head < (n : Int)) :
    (__logbuffer_log n inst tmp u c).1.logbuffer_tail
      = if (inst.logbuffer_head + 1) % (n : Int) = inst.logbuffer_tail then
          (inst.logbuffer_tail + 1) % (n : Int)
        else inst.logbuffer_tail := by
  have hr := emod_succ_range inst.logbuffer_head n hh0 hh1
  have he : (inst.logbuffer_head + 1).tmod (n : Int) = (inst.logbuffer_head + 1) % (n : Int) :=
    Int.tmod_eq_emod (by omega) (by omega)
  simp only [__logbuffer_log, he]
  split
  · next e => exact Int.tmod_eq_emod (by omega) (by omega)
  · rfl

theorem vlog_framed_head (n : Nat) (inst : logbuffer) (s : Bool) (fmt : Option CStr)
    (ex : CStr) (c1 c2 : ClockReading)
    (hh0 : 0 ≤ inst.logbuffer_head) (hh1 : inst.logbuffer_head < (n : Int))
    (ht : inst.logbuffer_head = inst.logbuffer_tail
      ∨ inst.logbuffer_head = (n : Int) - 1 ∨ s = true) :
    (logbuffer_vlog n inst s fmt ex c1 c2).inst.logbuffer_head
      = (inst.logbuffer_head + 2) % (n : Int) := by
  have hr1 := log_range_head n inst
    (vsnprintf LOG_BUFFER_ENTRY_SIZE (fmt.getD []) ex) true c1 hh0 hh1
  rw [vlog_framed n inst s fmt ex c1 c2 hh0 hh1 ht]
  simp only
  rw [log_head n _ _ false c2 hr1.1 hr1.2, log_head n inst _ true c1 hh0 hh1, emod_succ_succ]

theorem vlog_framed_tail (n : Nat) (inst : logbuffer) (s : Bool) (fmt : Option CStr)
    (ex : CStr) (c1 c2 : ClockReading)
    (hh0 : 0 ≤ inst.logbuffer_head) (hh1 : inst.logbuffer_head < (n : Int))
    (ht : inst.logbuffer_head = inst.logbuffer_tail
      ∨ inst.logbuffer_head = (n : Int) - 1 ∨ s = true) :
    (logbuffer_vlog n inst s fmt ex c1 c2).inst.logbuffer_tail
      = if (inst.logbuffer_head + 2) % (n : Int)
            = (if (inst.logbuffer_head + 1) % (n : Int) = inst.logbuffer_tail then
                (inst.logbuffer_tail + 1) % (n : Int) else inst.logbuffer_tail) then
          ((if (inst.logbuffer_head + 1) % (n : Int) = inst.logbuffer_tail then
                (inst.logbuffer_tail + 1) % (n : Int) else inst.logbuffer_tail) + 1) % (n : Int)
        else (if (inst.logbuffer_head + 1) % (n : Int) = inst.logbuffer_tail then
                (inst.logbuffer_tail + 1) % (n : Int) else inst.logbuffer_tail) := by
  have hr1 := log_range_head n inst
    (vsnprintf LOG_BUFFER_ENTRY_SIZE (fmt.getD []) ex) true c1 hh0 hh1
  rw [vlog_framed n inst s fmt ex c1 c2 hh0 hh1 ht]
  simp only
  rw [log_tail n _ _ false c2 hr1.1 hr1.2, log_tail n inst _ true c1 hh0 hh1,
    log_head n inst _ true c1 hh0 hh1, emod_succ_succ]

theorem vlog_plain_head (n : Nat) (inst : logbuffer) (fmt : Option CStr) (ex : CStr)
    (c1 c2 : ClockReading)
    (hh0 : 0 ≤ inst.logbuffer_head) (hh1 : inst.logbuffer_head < (n : Int))
    (hne : inst.logbuffer_head ≠ inst.logbuffer_tail)
    (hl : inst.logbuffer_head ≠ (n : Int) - 1)
    (hf1 : fmt ≠ none) (hf2 : fmt ≠ some []) :
    (logbuffer_vlog n inst false fmt ex c1 c2).inst.logbuffer_head
      = (inst.logbuffer_head + 1) % (n : Int) := by
  rw [vlog_plain n inst fmt ex c1 c2 hh0 hh1 hne hl hf1 hf2]
  exact log_head n inst _ false c1 hh0 hh1

theorem vlog_plain_tail (n : Nat) (inst : logbuffer) (fmt : Option CStr) (ex : CStr)
    (c1 c2 : ClockReading)
    (hh0 : 0 ≤ inst.logbuffer_head) (hh1 : inst.logbuffer_head < (n : Int))
    (hne : inst.logbuffer_head ≠ inst.logbuffer_tail)
    (hl : inst.logbuffer_head ≠ (n : Int) - 1)
    (hf1 : fmt ≠ none) (hf2 : fmt ≠ some []) :
    (logbuffer_vlog n inst false fmt ex c1 c2).inst.logbuffer_tail
      = if (inst.logbuffer_head + 1) % (n : Int) = inst.logbuffer_tail then
          (inst.logbuffer_tail + 1) % (n : Int)
        else inst.logbuffer_tail := by
  rw [vlog_plain n inst fmt ex c1 c2 hh0 hh1 hne hl hf1 hf2]
  exact log_tail n inst _ false c1 hh0 hh1

theorem vlog_stored_nil_inst (n : Nat) (inst : logbuffer) (s : Bool) (fmt : Option CStr)
    (ex : CStr) (c1 c2 : ClockReading)
    (h : (logbuffer_vlog n inst s fmt ex c1 c2).stored = []) :
    (logbuffer_vlog n inst s fmt ex c1 c2).inst = inst := by
  unfold logbuffer_vlog at h ⊢
  simp only at h ⊢
  split_ifs at h ⊢ <;> rfl

theorem vlog_head_ne_tail (n : Nat) (inst : logbuffer) (s : Bool) (fmt : Option CStr)
    (ex : CStr) (c1 c2 : ClockReading) (h2 : 2 ≤ n)
    (hh0 : 0 ≤ inst.logbuffer_head) (hh1 : inst.logbuffer_head < (n : Int))
    (hst : (logbuffer_vlog n inst s fmt ex c1 c2).stored ≠ []) :
    (logbuffer_vlog n inst s fmt ex c1 c2).inst.logbuffer_head
      ≠ (logbuffer_vlog n inst s fmt ex c1 c2).inst.logbuffer_tail := by
  by_cases ht : inst.logbuffer_head = inst.logbuffer_tail
      ∨ inst.logbuffer_head = (n : Int) - 1 ∨ s = true
  · have hr1 := log_range_head n inst
      (vsnprintf LOG_BUFFER_ENTRY_SIZE (fmt.getD []) ex) true c1 hh0 hh1
    rw [vlog_framed n inst s fmt ex c1 c2 hh0 hh1 ht]
    exact log_head_ne_tail n _ _ false c2 h2 hr1.1 hr1.2
  · have hs : s = false := by
      cases s
      · rfl
      · exact absurd (Or.inr (Or.inr rfl)) ht
    have hne : inst.logbuffer_head ≠ inst.logbuffer_tail := fun e => ht (Or.inl e)
    have hl : inst.logbuffer_head ≠ (n : Int) - 1 := fun e => ht (Or.inr (Or.inl e))
    subst hs
    by_cases hf : fmt = none ∨ fmt = some []
    · rw [vlog_skip n inst fmt ex c1 c2 hne hl hf] at hst
      exact absurd rfl hst
    · rw [vlog_plain n inst fmt ex c1 c2 hh0 hh1 hne hl
        (fun e => hf (Or.inl e)) (fun e => hf (Or.inr e))]
      exact log_head_ne_tail n inst _ false c1 h2 hh0 hh1

theorem vlog_never_empty (n : Nat) (inst : logbuffer) (s : Bool) (fmt : Option CStr)
    (ex : CStr) (c1 c2 : ClockReading) (h2 : 2 ≤ n)
    (hh0 : 0 ≤ inst.logbuffer_head) (hh1 : inst.logbuffer_head < (n : Int)) :
    (logbuffer_vlog n inst s fmt ex c1 c2).inst.logbuffer_head
      ≠ (logbuffer_vlog n inst s fmt ex c1 c2).inst.logbuffer_tail
      ∨ ((logbuffer_vlog n inst s fmt ex c1 c2).inst = inst
          ∧ inst.logbuffer_head ≠ inst.logbuffer_tail) := by
  by_cases hst : (logbuffer_vlog n inst s fmt ex c1 c2).stored = []
  · right
    refine ⟨vlog_stored_nil_inst n inst s fmt ex c1 c2 hst, fun e => ?_⟩
    rw [vlog_framed_stored n inst s fmt ex c1 c2 hh0 hh1 (Or.inl e)] at hst
    exact absurd hst (List.cons_ne_nil _ _)
  · left
    exact vlog_head_ne_tail n inst s fmt ex c1 c2 h2 hh0 hh1 hst

theorem step_not_log_inst (n : Nat) (s : Sys) (op : Op) (h : op.is_log = false) :
    (step n s op).1.inst = s.inst := by
  cases op with
  | log fmt ex c1 c2 => simp [Op.is_log] at h
  | seq_show =>
    simp only [step]
    split
    · next p e => exact seq_show_inst n n s.inst p e
    · rfl
  | suspend => rfl

theorem step_log_nonempty (n : Nat) (s : Sys) (op : Op) (h2 : 2 ≤ n)
    (hh0 : 0 ≤ s.inst.logbuffer_head) (hh1 : s.inst.logbuffer_head < (n : Int))
    (h : op.is_log = true) :
    (step n s op).1.inst.logbuffer_head ≠ (step n s op).1.inst.logbuffer_tail := by
  cases op with
  | log fmt ex c1 c2 =>
    simp only [step]
    rcases vlog_never_empty n s.inst s.suspend_since_last_logged fmt ex c1 c2 h2 hh0 hh1
      with h1 | ⟨h1, h3⟩
    · exact h1
    · rw [h1]; exact h3
  | seq_show => simp [Op.is_log] at h
  | suspend => simp [Op.is_log] at h

theorem run_nonempty (n : Nat) (h2 : 2 ≤ n) (ops : List Op) :
    ∀ (s : Sys) (hist : List Stored), RingInv n s.inst hist →
      (s.inst.logbuffer_head ≠ s.inst.logbuffer_tail ∨ ∃ op ∈ ops, op.is_log = true) →
      (run n s ops).1.inst.logbuffer_head ≠ (run n s ops).1.inst.logbuffer_tail := by
  induction ops with
  | nil =>
    intro s hist _ h
    rcases h with h | ⟨op, hop, _⟩
    · simpa [run] using h
    · simp at hop
  | cons op ops ih =>
    intro s hist hinv h
    have hinv1 := ringInv_step n s hist op hinv
    simp only [run]
    apply ih (step n s op).1 (hist ++ (step n s op).2) hinv1
    by_cases hl : op.is_log = true
    · left
      exact step_log_nonempty n s op h2 hinv.1 hinv.2.1 hl
    · have hl1 : op.is_log = false := by
        cases hb : op.is_log
        · rfl
        · exact absurd hb hl
      rcases h with h | ⟨o, ho, hol⟩
      · left
        rw [step_not_log_inst n s op hl1]
        exact h
      · right
        rcases List.mem_cons.mp ho with e | e
        · subst e; exact absurd hol hl
        · exact ⟨o, e, hol⟩

theorem run_no_log_inst (n : Nat) (ops : List Op) :
    ∀ (s : Sys), (∀ op ∈ ops, op.is_log = false) → (run n s ops).1.inst = s.inst := by
  induction ops with
  | nil => intro s _; rfl
  | cons op ops ih =>
    intro s h
    simp only [run]
    rw [ih (step n s op).1 (fun o ho => h o (List.mem_cons_of_mem _ ho)),
      step_not_log_inst n s op (h op (List.mem_cons_self _ _))]

/-- C1, counterexample. On a buffer of 4 slots, the five writes "a", "b", "c",
"d", "e" (5 > 4, distinct texts, suspend never set) store seven lines, the
five message lines among them; the read that follows prints three lines, those
of "c", "d" and "e", not the last four message lines. -/
theorem C1_counterexample :
    ((run 4 (Sys.mk logbuffer_register false) writes_abcde).2.filter
        (fun e => !e.utc)).map Stored.line
        = ["[    0.000000] a".toList, "[    0.000000] b".toList, "[    0.000000] c".toList,
           "[    0.000000] d".toList, "[    0.000000] e".toList]
      ∧ (run 4 (Sys.mk logbuffer_register false) writes_abcde).2.map Stored.utc
        = [true, false, false, true, false, false, false]
      ∧ (logbuffer_seq_show 4 4
          (run 4 (Sys.mk logbuffer_register false) writes_abcde).1.inst).map Prod.snd
        = some ["[    0.000000] c\n".toList, "[    0.000000] d\n".toList,
                "[    0.000000] e\n".toList]
      ∧ (logbuffer_seq_show 4 4
          (run 4 (Sys.mk logbuffer_register false) writes_abcde).1.inst).map Prod.snd
        ≠ some ["[    0.000000] b\n".toList, "[    0.000000] c\n".toList,
                "[    0.000000] d\n".toList, "[    0.000000] e\n".toList] := by
  decide

/-- C1 as amended (eviction correctness). From the instance
`logbuffer_register` returns, on a buffer of `entries` slots, after more than
`entries` writes whose format is neither NULL nor empty, each write has stored
exactly one message line, and `logbuffer_seq_show` prints exactly
`entries - 1` lines: the last `entries - 1` lines stored (UTC lines and
message lines together), in the order they were stored, everything older being
gone. The message lines among them are therefore the most recent ones, in
write order. -/
theorem C1_eviction_keeps_last_entries (entries : Nat) (hn : 0 < entries) (suspend : Bool)
    (ops : List Op)
    (hw : ∀ op ∈ ops, ∃ fmt ex c1 c2, op = Op.log fmt ex c1 c2 ∧ fmt ≠ none ∧ fmt ≠ some [])
    (hM : entries < ops.length) (fuel : Nat) (hf : entries ≤ fuel) :
    logbuffer_seq_show entries fuel (run entries (Sys.mk logbuffer_register suspend) ops).1.inst
        = some ((run entries (Sys.mk logbuffer_register suspend) ops).1.inst,
            (((run entries (Sys.mk logbuffer_register suspend) ops).2.drop
                ((run entries (Sys.mk logbuffer_register suspend) ops).2.length
                  - (entries - 1))).map Stored.line).map (fun l => l ++ ['\n']))
      ∧ ((run entries (Sys.mk logbuffer_register suspend) ops).2.drop
            ((run entries (Sys.mk logbuffer_register suspend) ops).2.length
              - (entries - 1))).length = entries - 1
      ∧ ((run entries (Sys.mk logbuffer_register suspend) ops).2.filter
            (fun e => !e.utc)).length = ops.length
      ∧ ((run entries (Sys.mk logbuffer_register suspend) ops).2.drop
            ((run entries (Sys.mk logbuffer_register suspend) ops).2.length
              - (entries - 1))).filter (fun e => !e.utc)
          <:+ (run entries (Sys.mk logbuffer_register suspend) ops).2.filter
            (fun e => !e.utc) := by
  have h := ringInv_run entries ops (Sys.mk logbuffer_register suspend) []
    (ringInv_register entries hn)
  have hc := run_content_count entries ops (Sys.mk logbuffer_register suspend) []
    (ringInv_register entries hn) hw
  have hle := List.length_filter_le (fun e : Stored => !e.utc)
    (run entries (Sys.mk logbuffer_register suspend) ops).2
  simp only [List.nil_append] at h
  obtain ⟨hh0, hh1, ht0, ht1, hwin⟩ := h
  refine ⟨?_, ?_, hc, ?_⟩
  · rw [seq_show_eq_spec entries fuel _ hh0 hh1 ht0 ht1 hf, hwin]
    simp only [List.map_drop]
  · rw [List.length_drop]
    omega
  · exact (List.drop_suffix _ _).filter _

/-- Witness of C1 as amended: 4 slots and the five writes "a" ... "e". -/
theorem C1_eviction_keeps_last_entries_witness :
    (0 < 4
      ∧ (∀ op ∈ writes_abcde,
          ∃ fmt ex c1 c2, op = Op.log fmt ex c1 c2 ∧ fmt ≠ none ∧ fmt ≠ some [])
      ∧ 4 < writes_abcde.length ∧ 4 ≤ 4)
    ∧ ((run 4 (Sys.mk logbuffer_register false) writes_abcde).2.drop
          ((run 4 (Sys.mk logbuffer_register false) writes_abcde).2.length - (4 - 1))).length
        = 4 - 1 :=
  ⟨⟨by decide, writes_abcde_nonempty, by decide, by decide⟩,
   (C1_eviction_keeps_last_entries 4 (by decide) false writes_abcde writes_abcde_nonempty
     (by decide) 4 (by decide)).2.1⟩

/-- C2 (order preservation). From the instance `logbuffer_register` returns,
after every finite sequence of writes (any formats and texts), suspend
notifications and reads, on a buffer with at least one slot, the lines
`logbuffer_seq_show` prints are, in the same order, a suffix of the list of all
lines stored so far (UTC lines and message lines together, in the order they
were stored): the last min(k, entries - 1) of the k stored lines. -/
theorem C2_order_preservation (entries : Nat) (hn : 0 < entries) (suspend : Bool)
    (ops : List Op) (fuel : Nat) (hf : entries ≤ fuel) :
    ∃ older lines : List CStr,
      (run entries (Sys.mk logbuffer_register suspend) ops).2.map Stored.line = older ++ lines
        ∧ logbuffer_seq_show entries fuel
              (run entries (Sys.mk logbuffer_register suspend) ops).1.inst
            = some ((run entries (Sys.mk logbuffer_register suspend) ops).1.inst,
                lines.map (fun l => l ++ ['\n']))
        ∧ lines.length
            = min (run entries (Sys.mk logbuffer_register suspend) ops).2.length
                (entries - 1) := by
  have h := ringInv_run entries ops (Sys.mk logbuffer_register suspend) []
    (ringInv_register entries hn)
  simp only [List.nil_append] at h
  obtain ⟨hh0, hh1, ht0, ht1, hw⟩ := h
  refine ⟨((run entries (Sys.mk logbuffer_register suspend) ops).2.map Stored.line).take
      ((run entries (Sys.mk logbuffer_register suspend) ops).2.length - (entries - 1)),
    ((run entries (Sys.mk logbuffer_register suspend) ops).2.map Stored.line).drop
      ((run entries (Sys.mk logbuffer_register suspend) ops).2.length - (entries - 1)),
    (List.take_append_drop _ _).symm, ?_, ?_⟩
  · rw [seq_show_eq_spec entries fuel _ hh0 hh1 ht0 ht1 hf, hw]
  · simp only [List.length_drop, List.length_map]
    omega

/-- Witness of C2: 4 slots and the five writes "a" ... "e". -/
theorem C2_order_preservation_witness :
    (0 < 4 ∧ 4 ≤ 4)
    ∧ ∃ older lines : List CStr,
      (run 4 (Sys.mk logbuffer_register false) writes_abcde).2.map Stored.line = older ++ lines
        ∧ logbuffer_seq_show 4 4 (run 4 (Sys.mk logbuffer_register false) writes_abcde).1.inst
            = some ((run 4 (Sys.mk logbuffer_register false) writes_abcde).1.inst,
                lines.map (fun l => l ++ ['\n']))
        ∧ lines.length
            = min (run 4 (Sys.mk logbuffer_register false) writes_abcde).2.length (4 - 1) :=
  ⟨⟨by decide, by decide⟩,
   C2_order_preservation 4 (by decide) false writes_abcde 4 (by decide)⟩

/-- C3 (first-write UTC framing). On the instance `logbuffer_register` returns
(head = tail = 0), whatever the format, its expansion, the clock readings and
the suspend flag are, the first `logbuffer_vlog` stores the UTC line in slot 0
and then the message line in slot 1, these two and no more; afterwards head = 2
and tail = 0, and `logbuffer_seq_show` prints exactly these two lines, the UTC
line first. The buffer has at least 3 slots (1024 in the source). -/
theorem C3_first_write_utc_framing (entries : Nat) (h3 : 3 ≤ entries) (suspend : Bool)
    (fmt : Option CStr) (expansion : CStr) (c1 c2 : ClockReading) :
    (logbuffer_vlog entries logbuffer_register suspend fmt expansion c1 c2).stored
        = [Stored.mk 0 (scnprintf LOG_BUFFER_ENTRY_SIZE (utc_text c1)) true,
           Stored.mk 1 (scnprintf LOG_BUFFER_ENTRY_SIZE
             (msg_text c2 (vsnprintf LOG_BUFFER_ENTRY_SIZE (fmt.getD []) expansion))) false]
      ∧ (logbuffer_vlog entries logbuffer_register suspend fmt expansion c1 c2).inst.buffer 0
          = scnprintf LOG_BUFFER_ENTRY_SIZE (utc_text c1)
      ∧ (logbuffer_vlog entries logbuffer_register suspend fmt expansion c1 c2).inst.buffer 1
          = scnprintf LOG_BUFFER_ENTRY_SIZE
              (msg_text c2 (vsnprintf LOG_BUFFER_ENTRY_SIZE (fmt.getD []) expansion))
      ∧ (logbuffer_vlog entries logbuffer_register suspend fmt expansion c1 c2).inst.logbuffer_head
          = 2
      ∧ (logbuffer_vlog entries logbuffer_register suspend fmt expansion c1 c2).inst.logbuffer_tail
          = 0
      ∧ ∀ fuel : Nat, entries ≤ fuel →
          logbuffer_seq_show entries fuel
              (logbuffer_vlog entries logbuffer_register suspend fmt expansion c1 c2).inst
            = some ((logbuffer_vlog entries logbuffer_register suspend fmt expansion c1 c2).inst,
                [scnprintf LOG_BUFFER_ENTRY_SIZE (utc_text c1) ++ ['\n'],
                 scnprintf LOG_BUFFER_ENTRY_SIZE
                   (msg_text c2 (vsnprintf LOG_BUFFER_ENTRY_SIZE (fmt.getD []) expansion))
                   ++ ['\n']]) := by
  have e1 : ((0 : Int) + 1).tmod (entries : Int) = 1 := by
    have := tmod_succ_of_range 0 entries (by omega) (by omega)
    omega
  have e2 : ((1 : Int) + 1).tmod (entries : Int) = 2 := by
    have := tmod_succ_of_range 1 entries (by omega) (by omega)
    omega
  have hn : ¬ ((0 : Int) < 0 ∨ (0 : Int) ≥ (entries : Int)) := by omega
  have hv : logbuffer_vlog entries logbuffer_register suspend fmt expansion c1 c2
      = VlogResult.mk
          (logbuffer.mk 2 0 (fun i =>
            if i = 1 then scnprintf LOG_BUFFER_ENTRY_SIZE
              (msg_text c2 (vsnprintf LOG_BUFFER_ENTRY_SIZE (fmt.getD []) expansion))
            else if i = 0 then scnprintf LOG_BUFFER_ENTRY_SIZE (utc_text c1) else []))
          suspend
          [Stored.mk 0 (scnprintf LOG_BUFFER_ENTRY_SIZE (utc_text c1)) true,
           Stored.mk 1 (scnprintf LOG_BUFFER_ENTRY_SIZE
             (msg_text c2 (vsnprintf LOG_BUFFER_ENTRY_SIZE (fmt.getD []) expansion))) false] := by
    have e1n : Int.tmod 1 (entries : Int) = 1 := by simpa using e1
    have e2n : Int.tmod 2 (entries : Int) = 2 := by simpa using e2
    have hne : entries ≠ 0 := by omega
    simp [logbuffer_vlog, logbuffer_register, __logbuffer_log, hne, e1n, e2n]
  rw [hv]
  refine ⟨rfl, by simp, by simp, rfl, rfl, ?_⟩
  intro fuel hf
  rw [seq_show_eq_spec entries fuel _ (by simp) (by simp; omega) (by simp) (by simp; omega) hf]
  have m2 : (2 : Int) % (entries : Int) = 2 := Int.emod_eq_of_lt (by omega) (by omega)
  have m1 : (1 : Int) % (entries : Int) = 1 := Int.emod_eq_of_lt (by omega) (by omega)
  simp [snapshot_spec, m2, m1, List.range_succ]

/-- Witness of C3 at 4 slots, a NULL format and the zero clock. -/
theorem C3_first_write_utc_framing_witness :
    3 ≤ 4 ∧
    (logbuffer_vlog 4 logbuffer_register true none [] clock_zero clock_zero).inst.logbuffer_head
      = 2 :=
  ⟨by decide,
   (C3_first_write_utc_framing 4 (by decide) true none [] clock_zero clock_zero).2.2.2.1⟩

/-- C4, counterexample. On a buffer of 8 slots with head = 5 and tail = 0, after
`logbuffer_suspend` the first call stores a UTC line and the message line and
clears the flag, which leaves head = 7, the last slot index; the second call,
right after and with no new suspend, stores a UTC line again before its
message line. -/
theorem C4_counterexample :
    (logbuffer_vlog 8 (logbuffer.mk 5 0 (fun _ => [])) (logbuffer_suspend false)
        (some ['x']) ['x'] clock_zero clock_zero).stored.map Stored.utc = [true, false]
      ∧ (logbuffer_vlog 8 (logbuffer.mk 5 0 (fun _ => [])) (logbuffer_suspend false)
        (some ['x']) ['x'] clock_zero clock_zero).suspend_since_last_logged = false
      ∧ (logbuffer_vlog 8 (logbuffer.mk 5 0 (fun _ => [])) (logbuffer_suspend false)
        (some ['x']) ['x'] clock_zero clock_zero).inst.logbuffer_head = 7
      ∧ (logbuffer_vlog 8
          (logbuffer_vlog 8 (logbuffer.mk 5 0 (fun _ => [])) (logbuffer_suspend false)
            (some ['x']) ['x'] clock_zero clock_zero).inst
          (logbuffer_vlog 8 (logbuffer.mk 5 0 (fun _ => [])) (logbuffer_suspend false)
            (some ['x']) ['x'] clock_zero clock_zero).suspend_since_last_logged
          (some ['y']) ['y'] clock_zero clock_zero).stored.map Stored.utc = [true, false] := by
  decide

/-- C4 as amended (suspend-triggered framing and reset). For every instance
whose head is inside the buffer, the call of `logbuffer_vlog` that follows
`logbuffer_suspend` stores a UTC line in slot head and then the message line in
the next slot. When that call was entered with head != tail and head not the
last slot index (the flag was the trigger), it clears the flag, and a second
call right after it, with a format that is neither NULL nor empty and entered
with head not the last slot index, stores one line only, the plain message
line, in slot head. -/
theorem C4_suspend_framing_and_reset (entries : Nat) (inst : logbuffer) (s0 : Bool)
    (fmt1 : Option CStr) (ex1 : CStr) (c1 c2 : ClockReading)
    (fmt2 : Option CStr) (ex2 : CStr) (c3 c4 : ClockReading)
    (hh0 : 0 ≤ inst.logbuffer_head) (hh1 : inst.logbuffer_head < (entries : Int)) :
    (logbuffer_vlog entries inst (logbuffer_suspend s0) fmt1 ex1 c1 c2).stored
        = [Stored.mk inst.logbuffer_head (scnprintf LOG_BUFFER_ENTRY_SIZE (utc_text c1)) true,
           Stored.mk ((inst.logbuffer_head + 1) % (entries : Int))
             (scnprintf LOG_BUFFER_ENTRY_SIZE
               (msg_text c2 (vsnprintf LOG_BUFFER_ENTRY_SIZE (fmt1.getD []) ex1))) false]
      ∧ (inst.logbuffer_head ≠ inst.logbuffer_tail →
          inst.logbuffer_head ≠ (entries : Int) - 1 →
          (logbuffer_vlog entries inst (logbuffer_suspend s0) fmt1 ex1 c1 c2).suspend_since_last_logged
              = false
            ∧ (fmt2 ≠ none → fmt2 ≠ some [] →
                (logbuffer_vlog entries inst (logbuffer_suspend s0) fmt1 ex1 c1 c2).inst.logbuffer_head
                  ≠ (entries : Int) - 1 →
                (logbuffer_vlog entries
                    (logbuffer_vlog entries inst (logbuffer_suspend s0) fmt1 ex1 c1 c2).inst
                    (logbuffer_vlog entries inst (logbuffer_suspend s0) fmt1 ex1 c1
                      c2).suspend_since_last_logged
                    fmt2 ex2 c3 c4).stored
                  = [Stored.mk
                      (logbuffer_vlog entries inst (logbuffer_suspend s0) fmt1 ex1 c1
                        c2).inst.logbuffer_head
                      (scnprintf LOG_BUFFER_ENTRY_SIZE
                        (msg_text c3 (vsnprintf LOG_BUFFER_ENTRY_SIZE (fmt2.getD []) ex2)))
                      false])) := by
  have hv := vlog_framed entries inst (logbuffer_suspend s0) fmt1 ex1 c1 c2 hh0 hh1
    (Or.inr (Or.inr rfl))
  have hr1 := log_range_head entries inst
    (vsnprintf LOG_BUFFER_ENTRY_SIZE (fmt1.getD []) ex1) true c1 hh0 hh1
  have hr2 := log_range_head entries _
    (vsnprintf LOG_BUFFER_ENTRY_SIZE (fmt1.getD []) ex1) false c2 hr1.1 hr1.2
  rw [hv]
  refine ⟨?_, fun hne hl => ?_⟩
  · simp only [log_stored, log_head entries inst _ true c1 hh0 hh1, if_true,
      Bool.false_eq_true, if_false]
  · have hb : ¬ (inst.logbuffer_head = inst.logbuffer_tail
        ∨ inst.logbuffer_head = (entries : Int) - 1) := by tauto
    simp only [if_neg hb, true_and]
    intro hf1 hf2 hl2
    have h2 : 2 ≤ entries := by omega
    have hne2 := log_head_ne_tail entries
      (__logbuffer_log entries inst (vsnprintf LOG_BUFFER_ENTRY_SIZE (fmt1.getD []) ex1)
        true c1).1
      (vsnprintf LOG_BUFFER_ENTRY_SIZE (fmt1.getD []) ex1) false c2 h2 hr1.1 hr1.2
    rw [vlog_plain entries _ fmt2 ex2 c3 c4 hr2.1 hr2.2 hne2 hl2 hf1 hf2]
    simp only [log_stored, Bool.false_eq_true, if_false]

/-- Witness of C4 as amended: 8 slots, head = 2, tail = 0; the second call
stores the plain message line alone, in slot 4. -/
theorem C4_suspend_framing_and_reset_witness :
    (0 ≤ (logbuffer.mk 2 0 (fun _ => [])).logbuffer_head
      ∧ (logbuffer.mk 2 0 (fun _ => [])).logbuffer_head < ((8 : Nat) : Int))
    ∧ (logbuffer_vlog 8
          (logbuffer_vlog 8 (logbuffer.mk 2 0 (fun _ => [])) (logbuffer_suspend false)
            (some ['x']) ['x'] clock_zero clock_zero).inst
          (logbuffer_vlog 8 (logbuffer.mk 2 0 (fun _ => [])) (logbuffer_suspend false)
            (some ['x']) ['x'] clock_zero clock_zero).suspend_since_last_logged
          (some ['y']) ['y'] clock_zero clock_zero).stored
        = [Stored.mk
            (logbuffer_vlog 8 (logbuffer.mk 2 0 (fun _ => [])) (logbuffer_suspend false)
              (some ['x']) ['x'] clock_zero clock_zero).inst.logbuffer_head
            (scnprintf LOG_BUFFER_ENTRY_SIZE
              (msg_text clock_zero
                (vsnprintf LOG_BUFFER_ENTRY_SIZE ((some ['y'] : Option CStr).getD []) ['y'])))
            false] :=
  ⟨⟨by decide, by decide⟩,
   ((C4_suspend_framing_and_reset 8 (logbuffer.mk 2 0 (fun _ => [])) false
     (some ['x']) ['x'] clock_zero clock_zero (some ['y']) ['y'] clock_zero clock_zero
     (by decide) (by decide)).2 (by decide) (by decide)).2 (by decide) (by decide) (by decide)⟩

/-- C5, counterexample. On a buffer of 4 slots with head = 1, tail = 0 and the
suspend flag clear, the call `logbuffer_log(inst, "%s", "")` has an empty
formatted text, yet it stores the line `"[    0.000000] "` in slot 1 and moves
the head to 2: the test of `logbuffer_vlog` is on the format, not on the text. -/
theorem C5_counterexample :
    vsnprintf LOG_BUFFER_ENTRY_SIZE ['%', 's'] [] = []
      ∧ (logbuffer.mk 1 0 (fun _ => [])).logbuffer_head
          ≠ (logbuffer.mk 1 0 (fun _ => [])).logbuffer_tail
      ∧ (logbuffer.mk 1 0 (fun _ => [])).logbuffer_head ≠ ((4 : Nat) : Int) - 1
      ∧ (logbuffer_vlog 4 (logbuffer.mk 1 0 (fun _ => [])) false (some ['%', 's']) []
          clock_zero clock_zero).inst.logbuffer_head = 2
      ∧ (logbuffer_vlog 4 (logbuffer.mk 1 0 (fun _ => [])) false (some ['%', 's']) []
          clock_zero clock_zero).inst.buffer 1 = "[    0.000000] ".toList
      ∧ (logbuffer_vlog 4 (logbuffer.mk 1 0 (fun _ => [])) false (some ['%', 's']) []
          clock_zero clock_zero).stored
          = [Stored.mk 1 "[    0.000000] ".toList false] := by
  decide

/-- C5 as amended (empty-write no-op). When the buffer is not empty
(head != tail), the head is not the last slot index and the suspend flag is
clear, a call of `logbuffer_vlog` whose format is NULL or the empty string
stores nothing and leaves head, tail, every slot and the suspend flag as they
were. -/
theorem C5_empty_format_noop (entries : Nat) (inst : logbuffer) (fmt : Option CStr)
    (expansion : CStr) (c1 c2 : ClockReading)
    (hne : inst.logbuffer_head ≠ inst.logbuffer_tail)
    (hlast : inst.logbuffer_head ≠ (entries : Int) - 1)
    (hfmt : fmt = none ∨ fmt = some []) :
    logbuffer_vlog entries inst false fmt expansion c1 c2 = VlogResult.mk inst false [] :=
  vlog_skip entries inst fmt expansion c1 c2 hne hlast hfmt

/-- Witness of C5 as amended: 4 slots, head = 1, tail = 0, the empty format. -/
theorem C5_empty_format_noop_witness :
    (logbuffer.mk 1 0 (fun _ => [])).logbuffer_head
        ≠ (logbuffer.mk 1 0 (fun _ => [])).logbuffer_tail
      ∧ (logbuffer.mk 1 0 (fun _ => [])).logbuffer_head ≠ ((4 : Nat) : Int) - 1
      ∧ ((some [] : Option CStr) = none ∨ (some [] : Option CStr) = some [])
      ∧ logbuffer_vlog 4 (logbuffer.mk 1 0 (fun _ => [])) false (some []) []
          clock_zero clock_zero
        = VlogResult.mk (logbuffer.mk 1 0 (fun _ => [])) false [] :=
  ⟨by decide, by decide, by decide,
   C5_empty_format_noop 4 (logbuffer.mk 1 0 (fun _ => [])) (some []) [] clock_zero clock_zero
     (by decide) (by decide) (by decide)⟩

/-- C6 (UTC header trigger). A call of `logbuffer_vlog` entered with a head
inside the buffer stores a UTC line exactly when, on entry, head = tail, or
head is the last slot index, or the suspend flag is set. When it does, it
stores two lines: the UTC line in slot head and the message line in slot
(head + 1) mod entries, the slot circularly next to it; with at least two
slots both lines are in the buffer on return. -/
theorem C6_utc_trigger (entries : Nat) (inst : logbuffer) (suspend : Bool)
    (fmt : Option CStr) (expansion : CStr) (c1 c2 : ClockReading)
    (hh0 : 0 ≤ inst.logbuffer_head) (hh1 : inst.logbuffer_head < (entries : Int)) :
    ((∃ e ∈ (logbuffer_vlog entries inst suspend fmt expansion c1 c2).stored, e.utc = true)
        ↔ (inst.logbuffer_head = inst.logbuffer_tail
            ∨ inst.logbuffer_head = (entries : Int) - 1 ∨ suspend = true))
      ∧ ((∃ e ∈ (logbuffer_vlog entries inst suspend fmt expansion c1 c2).stored, e.utc = true)
        → (logbuffer_vlog entries inst suspend fmt expansion c1 c2).stored
            = [Stored.mk inst.logbuffer_head
                 (scnprintf LOG_BUFFER_ENTRY_SIZE (utc_text c1)) true,
               Stored.mk ((inst.logbuffer_head + 1) % (entries : Int))
                 (scnprintf LOG_BUFFER_ENTRY_SIZE
                   (msg_text c2 (vsnprintf LOG_BUFFER_ENTRY_SIZE (fmt.getD []) expansion)))
                 false]
          ∧ (2 ≤ entries →
              (logbuffer_vlog entries inst suspend fmt expansion c1 c2).inst.buffer
                  inst.logbuffer_head
                = scnprintf LOG_BUFFER_ENTRY_SIZE (utc_text c1)
              ∧ (logbuffer_vlog entries inst suspend fmt expansion c1 c2).inst.buffer
                  ((inst.logbuffer_head + 1) % (entries : Int))
                = scnprintf LOG_BUFFER_ENTRY_SIZE
                   (msg_text c2 (vsnprintf LOG_BUFFER_ENTRY_SIZE (fmt.getD []) expansion)))) := by
  by_cases ht : inst.logbuffer_head = inst.logbuffer_tail
      ∨ inst.logbuffer_head = (entries : Int) - 1 ∨ suspend = true
  · have hv := vlog_framed entries inst suspend fmt expansion c1 c2 hh0 hh1 ht
    have hst : (logbuffer_vlog entries inst suspend fmt expansion c1 c2).stored
        = [Stored.mk inst.logbuffer_head
             (scnprintf LOG_BUFFER_ENTRY_SIZE (utc_text c1)) true,
           Stored.mk ((inst.logbuffer_head + 1) % (entries : Int))
             (scnprintf LOG_BUFFER_ENTRY_SIZE
               (msg_text c2 (vsnprintf LOG_BUFFER_ENTRY_SIZE (fmt.getD []) expansion)))
             false] := by
      rw [hv]
      simp only [log_stored, log_head entries inst _ true c1 hh0 hh1, if_true,
        Bool.false_eq_true, if_false]
    refine ⟨⟨fun _ => ht, fun _ => ?_⟩, fun _ => ⟨hst, fun h2 => ?_⟩⟩
    · rw [hst]
      exact ⟨_, List.mem_cons_self _ _, rfl⟩
    · have hw := emod_window (inst.logbuffer_head + 1) entries (by omega) (by omega)
      have hne : inst.logbuffer_head ≠ (inst.logbuffer_head + 1) % (entries : Int) := by omega
      rw [hv]
      simp only [log_buffer_at, log_head entries inst _ true c1 hh0 hh1, if_true,
        Bool.false_eq_true, if_false, if_neg hne, and_self]
  · have hs : suspend = false := by
      cases suspend
      · rfl
      · exact absurd (Or.inr (Or.inr rfl)) ht
    have hne : inst.logbuffer_head ≠ inst.logbuffer_tail := fun e => ht (Or.inl e)
    have hl : inst.logbuffer_head ≠ (entries : Int) - 1 := fun e => ht (Or.inr (Or.inl e))
    subst hs
    have hno : ¬ ∃ e ∈ (logbuffer_vlog entries inst false fmt expansion c1 c2).stored,
        e.utc = true := by
      by_cases hf : fmt = none ∨ fmt = some []
      · rw [vlog_skip entries inst fmt expansion c1 c2 hne hl hf]
        simp
      · rw [vlog_plain entries inst fmt expansion c1 c2 hh0 hh1 hne hl
          (fun e => hf (Or.inl e)) (fun e => hf (Or.inr e))]
        simp [log_stored]
    exact ⟨⟨fun h => absurd h hno, fun h => absurd h ht⟩, fun h => absurd h hno⟩

/-- Witness of C6: 4 slots, head = 3 (the last slot index), tail = 1. -/
theorem C6_utc_trigger_witness :
    (0 ≤ (logbuffer.mk 3 1 (fun _ => [])).logbuffer_head
      ∧ (logbuffer.mk 3 1 (fun _ => [])).logbuffer_head < ((4 : Nat) : Int))
    ∧ ((∃ e ∈ (logbuffer_vlog 4 (logbuffer.mk 3 1 (fun _ => [])) false (some ['x']) ['x']
          clock_zero clock_zero).stored, e.utc = true)
        ↔ ((logbuffer.mk 3 1 (fun _ => [])).logbuffer_head
              = (logbuffer.mk 3 1 (fun _ => [])).logbuffer_tail
            ∨ (logbuffer.mk 3 1 (fun _ => [])).logbuffer_head = ((4 : Nat) : Int) - 1
            ∨ false = true)) :=
  ⟨⟨by decide, by decide⟩,
   (C6_utc_trigger 4 (logbuffer.mk 3 1 (fun _ => [])) false (some ['x']) ['x']
     clock_zero clock_zero (by decide) (by decide)).1⟩

/-- C7 (index invariant). From the instance `logbuffer_register` returns, after
every finite sequence of `logbuffer_vlog`, `logbuffer_seq_show` and
`logbuffer_suspend` calls, on a buffer with at least one slot, both indices are
slot indices: 0 <= head < entries and 0 <= tail < entries. -/
theorem C7_index_invariant (entries : Nat) (hn : 0 < entries) (suspend : Bool)
    (ops : List Op) :
    0 ≤ (run entries (Sys.mk logbuffer_register suspend) ops).1.inst.logbuffer_head
      ∧ (run entries (Sys.mk logbuffer_register suspend) ops).1.inst.logbuffer_head
          < (entries : Int)
      ∧ 0 ≤ (run entries (Sys.mk logbuffer_register suspend) ops).1.inst.logbuffer_tail
      ∧ (run entries (Sys.mk logbuffer_register suspend) ops).1.inst.logbuffer_tail
          < (entries : Int) := by
  have h := ringInv_run entries ops (Sys.mk logbuffer_register suspend) []
    (ringInv_register entries hn)
  exact ⟨h.1, h.2.1, h.2.2.1, h.2.2.2.1⟩

/-- Witness of C7: 4 slots, a suspend, three writes and a read. -/
theorem C7_index_invariant_witness :
    0 < 4
    ∧ 0 ≤ (run 4 (Sys.mk logbuffer_register false)
        [Op.suspend, Op.log (some ['x']) ['x'] clock_zero clock_zero,
         Op.log none [] clock_zero clock_zero, Op.seq_show,
         Op.log (some ['y']) ['y'] clock_zero clock_zero]).1.inst.logbuffer_head
    ∧ (run 4 (Sys.mk logbuffer_register false)
        [Op.suspend, Op.log (some ['x']) ['x'] clock_zero clock_zero,
         Op.log none [] clock_zero clock_zero, Op.seq_show,
         Op.log (some ['y']) ['y'] clock_zero clock_zero]).1.inst.logbuffer_head < ((4 : Nat) : Int)
    ∧ 0 ≤ (run 4 (Sys.mk logbuffer_register false)
        [Op.suspend, Op.log (some ['x']) ['x'] clock_zero clock_zero,
         Op.log none [] clock_zero clock_zero, Op.seq_show,
         Op.log (some ['y']) ['y'] clock_zero clock_zero]).1.inst.logbuffer_tail
    ∧ (run 4 (Sys.mk logbuffer_register false)
        [Op.suspend, Op.log (some ['x']) ['x'] clock_zero clock_zero,
         Op.log none [] clock_zero clock_zero, Op.seq_show,
         Op.log (some ['y']) ['y'] clock_zero clock_zero]).1.inst.logbuffer_tail < ((4 : Nat) : Int) :=
  ⟨by decide, C7_index_invariant 4 (by decide) false _⟩

/-- C8 (snapshot content). For every instance whose head and tail are inside
the buffer, `logbuffer_seq_show` returns whenever it is given at least
`entries` rounds of fuel, and it prints exactly the slots tail, tail + 1, ...,
head - 1 (indices modulo the number of slots, slot head excluded), oldest
first, each followed by one newline: (head - tail) mod entries lines, fewer
than `entries`. The instance is returned as it was, so a second read right
after the first prints the same. -/
theorem C8_snapshot_content (entries fuel : Nat) (inst : logbuffer)
    (hh0 : 0 ≤ inst.logbuffer_head) (hh1 : inst.logbuffer_head < (entries : Int))
    (ht0 : 0 ≤ inst.logbuffer_tail) (ht1 : inst.logbuffer_tail < (entries : Int))
    (hf : entries ≤ fuel) :
    logbuffer_seq_show entries fuel inst
        = some (inst,
            (List.range
                ((inst.logbuffer_head - inst.logbuffer_tail) % (entries : Int)).toNat).map
              (fun (j : Nat) =>
                inst.buffer ((inst.logbuffer_tail + (j : Int)) % (entries : Int)) ++ ['\n']))
      ∧ ((inst.logbuffer_head - inst.logbuffer_tail) % (entries : Int)).toNat < entries
      ∧ (logbuffer_seq_show entries fuel inst).bind
            (fun p => logbuffer_seq_show entries fuel p.1)
          = logbuffer_seq_show entries fuel inst := by
  have h := seq_show_eq_spec entries fuel inst hh0 hh1 ht0 ht1 hf
  have hl := snapshot_spec_lt entries inst hh0 hh1 ht0 ht1
  rw [snapshot_spec_length] at hl
  refine ⟨?_, hl, ?_⟩
  · rw [h]
    simp only [snapshot_spec, List.map_map, Function.comp_def]
  · rw [h]
    simp only [Option.some_bind, h]

/-- Witness of C8: 4 slots, head = 1, tail = 2 (the window wraps): the read
prints slots 2, 3 and 0. -/
theorem C8_snapshot_content_witness :
    (0 ≤ wrapped_example.logbuffer_head
      ∧ wrapped_example.logbuffer_head < ((4 : Nat) : Int)
      ∧ 0 ≤ wrapped_example.logbuffer_tail
      ∧ wrapped_example.logbuffer_tail < ((4 : Nat) : Int)
      ∧ 4 ≤ 4)
    ∧ (logbuffer_seq_show 4 4 wrapped_example).map Prod.snd
        = some [['c', '\n'], ['d', '\n'], ['a', '\n']]
    ∧ ((wrapped_example.logbuffer_head - wrapped_example.logbuffer_tail)
          % ((4 : Nat) : Int)).toNat < 4 :=
  ⟨⟨by decide, by decide, by decide, by decide, by decide⟩, by decide,
   (C8_snapshot_content 4 4 wrapped_example
     (by decide) (by decide) (by decide) (by decide) (by decide)).2.1⟩

/-- C9 (defensive head check). When `logbuffer_head` is negative or at least
the number of slots on entry, `logbuffer_vlog` stores nothing and returns the
instance (head, tail and every slot) and the suspend flag as they were,
whatever the format, its expansion and the flag are. -/
theorem C9_bad_head_aborts (entries : Nat) (inst : logbuffer) (suspend : Bool)
    (fmt : Option CStr) (expansion : CStr) (c1 c2 : ClockReading)
    (h : inst.logbuffer_head < 0 ∨ inst.logbuffer_head ≥ (entries : Int)) :
    logbuffer_vlog entries inst suspend fmt expansion c1 c2
      = VlogResult.mk inst suspend [] :=
  vlog_abort entries inst suspend fmt expansion c1 c2 h

/-- Witness of C9: head = 4 on a buffer of 4 slots, suspend flag set. -/
theorem C9_bad_head_aborts_witness :
    ((logbuffer.mk 4 0 (fun _ => [])).logbuffer_head < 0
        ∨ (logbuffer.mk 4 0 (fun _ => [])).logbuffer_head ≥ ((4 : Nat) : Int))
      ∧ logbuffer_vlog 4 (logbuffer.mk 4 0 (fun _ => [])) true (some ['x']) ['x']
          clock_zero clock_zero
        = VlogResult.mk (logbuffer.mk 4 0 (fun _ => [])) true [] :=
  ⟨by decide,
   C9_bad_head_aborts 4 (logbuffer.mk 4 0 (fun _ => [])) true (some ['x']) ['x']
     clock_zero clock_zero (by decide)⟩

/-- C10, counterexample. On a buffer of 4 slots with head = 1 and tail = 7
(outside the buffer), `logbuffer_vlog` does not abort: it stores the message
line in slot 1 and moves the head to 2. Only the head is range-checked. -/
theorem C10_counterexample :
    ((logbuffer.mk 1 7 (fun _ => [])).logbuffer_tail < 0
        ∨ (logbuffer.mk 1 7 (fun _ => [])).logbuffer_tail ≥ ((4 : Nat) : Int))
      ∧ (logbuffer_vlog 4 (logbuffer.mk 1 7 (fun _ => [])) false (some ['x']) ['x']
          clock_zero clock_zero).stored = [Stored.mk 1 "[    0.000000] x".toList false]
      ∧ (logbuffer_vlog 4 (logbuffer.mk 1 7 (fun _ => [])) false (some ['x']) ['x']
          clock_zero clock_zero).inst.logbuffer_head = 2
      ∧ (logbuffer_vlog 4 (logbuffer.mk 1 7 (fun _ => [])) false (some ['x']) ['x']
          clock_zero clock_zero).inst.buffer 1 = "[    0.000000] x".toList := by
  decide

/-- C10 as amended (the tail is not range-checked). When the tail is outside
the buffer and the head inside on entry, `logbuffer_vlog` leaves the tail as it
is and does not abort on its account: it stores nothing only in the empty-format
case (head not the last slot index, suspend flag clear, format NULL or empty);
in every other case it stores the message line, after a UTC line exactly when
head is the last slot index or the suspend flag is set, and on return the head
has advanced by the number of lines stored, modulo the number of slots. -/
theorem C10_bad_tail_not_checked (entries : Nat) (inst : logbuffer) (suspend : Bool)
    (fmt : Option CStr) (expansion : CStr) (c1 c2 : ClockReading)
    (hh0 : 0 ≤ inst.logbuffer_head) (hh1 : inst.logbuffer_head < (entries : Int))
    (ht : inst.logbuffer_tail < 0 ∨ inst.logbuffer_tail ≥ (entries : Int)) :
    (logbuffer_vlog entries inst suspend fmt expansion c1 c2).inst.logbuffer_tail
        = inst.logbuffer_tail
      ∧ (logbuffer_vlog entries inst suspend fmt expansion c1 c2).inst.logbuffer_head
        = (inst.logbuffer_head
            + ((logbuffer_vlog entries inst suspend fmt expansion c1 c2).stored.length : Int))
          % (entries : Int)
      ∧ ((logbuffer_vlog entries inst suspend fmt expansion c1 c2).stored = []
        ↔ (inst.logbuffer_head ≠ (entries : Int) - 1 ∧ suspend = false
            ∧ (fmt = none ∨ fmt = some [])))
      ∧ ((logbuffer_vlog entries inst suspend fmt expansion c1 c2).stored.map Stored.utc
            = [true, false]
        ↔ (inst.logbuffer_head = (entries : Int) - 1 ∨ suspend = true))
      ∧ ((logbuffer_vlog entries inst suspend fmt expansion c1 c2).stored.map Stored.utc = [false]
        ↔ (inst.logbuffer_head ≠ (entries : Int) - 1 ∧ suspend = false
            ∧ fmt ≠ none ∧ fmt ≠ some [])) := by
  have hne : inst.logbuffer_head ≠ inst.logbuffer_tail := by omega
  by_cases htr : inst.logbuffer_head = (entries : Int) - 1 ∨ suspend = true
  · have hv := vlog_framed entries inst suspend fmt expansion c1 c2 hh0 hh1 (Or.inr htr)
    have hr1 := log_range_head entries inst
      (vsnprintf LOG_BUFFER_ENTRY_SIZE (fmt.getD []) expansion) true c1 hh0 hh1
    have ht1 := log_tail_out entries inst
      (vsnprintf LOG_BUFFER_ENTRY_SIZE (fmt.getD []) expansion) true c1 hh0 hh1 ht
    have ht2 := log_tail_out entries _
      (vsnprintf LOG_BUFFER_ENTRY_SIZE (fmt.getD []) expansion) false c2 hr1.1 hr1.2
      (by rw [ht1]; exact ht)
    have hh2 := log_head entries _
      (vsnprintf LOG_BUFFER_ENTRY_SIZE (fmt.getD []) expansion) false c2 hr1.1 hr1.2
    rw [log_head entries inst _ true c1 hh0 hh1, emod_succ_succ] at hh2
    rw [hv]
    refine ⟨by rw [ht2, ht1], by simpa using hh2, ?_, ?_, ?_⟩
    · simp only [List.cons_ne_nil, false_iff]
      intro h
      rcases htr with h1 | h1
      · exact h.1 h1
      · rw [h1] at h; exact absurd h.2.1 (by decide)
    · simp only [log_stored, List.map_cons, List.map_nil, true_iff]
      exact htr
    · simp only [log_stored, List.map_cons, List.map_nil]
      constructor
      · intro h; exact absurd h (by decide)
      · intro h
        rcases htr with h1 | h1
        · exact absurd h1 h.1
        · rw [h1] at h; exact absurd h.2.1 (by decide)
  · have hs : suspend = false := by
      cases suspend
      · rfl
      · exact absurd (Or.inr rfl) htr
    have hl : inst.logbuffer_head ≠ (entries : Int) - 1 := fun e => htr (Or.inl e)
    subst hs
    by_cases hf : fmt = none ∨ fmt = some []
    · rw [vlog_skip entries inst fmt expansion c1 c2 hne hl hf]
      refine ⟨rfl, ?_, ?_, ?_, ?_⟩
      · simp only [List.length_nil, Int.Nat.cast_ofNat_Int, add_zero]
        exact (Int.emod_eq_of_lt hh0 hh1).symm
      · simp only [true_iff]
        exact ⟨hl, trivial, hf⟩
      · simp only [List.map_nil]
        constructor
        · intro h; exact absurd h (by decide)
        · intro h; exact absurd h htr
      · simp only [List.map_nil]
        constructor
        · intro h; exact absurd h (by decide)
        · intro h
          rcases hf with h1 | h1
          · exact absurd h1 h.2.2.1
          · exact absurd h1 h.2.2.2
    · have hf1 : fmt ≠ none := fun e => hf (Or.inl e)
      have hf2 : fmt ≠ some [] := fun e => hf (Or.inr e)
      rw [vlog_plain entries inst fmt expansion c1 c2 hh0 hh1 hne hl hf1 hf2]
      refine ⟨log_tail_out entries inst _ false c1 hh0 hh1 ht, ?_, ?_, ?_, ?_⟩
      · simpa using log_head entries inst _ false c1 hh0 hh1
      · simp only [List.cons_ne_nil, false_iff]
        intro h
        exact hf h.2.2
      · simp only [log_stored, List.map_cons, List.map_nil]
        constructor
        · intro h; exact absurd h (by decide)
        · intro h; exact absurd h htr
      · simp only [log_stored, List.map_cons, List.map_nil, true_iff]
        exact ⟨hl, trivial, hf1, hf2⟩

/-- Witness of C10 as amended: 4 slots, head = 1, tail = 7. -/
theorem C10_bad_tail_not_checked_witness :
    (0 ≤ (logbuffer.mk 1 7 (fun _ => [])).logbuffer_head
      ∧ (logbuffer.mk 1 7 (fun _ => [])).logbuffer_head < ((4 : Nat) : Int)
      ∧ ((logbuffer.mk 1 7 (fun _ => [])).logbuffer_tail < 0
          ∨ (logbuffer.mk 1 7 (fun _ => [])).logbuffer_tail ≥ ((4 : Nat) : Int)))
    ∧ (logbuffer_vlog 4 (logbuffer.mk 1 7 (fun _ => [])) false (some ['x']) ['x']
          clock_zero clock_zero).inst.logbuffer_tail
        = (logbuffer.mk 1 7 (fun _ => [])).logbuffer_tail :=
  ⟨⟨by decide, by decide, by decide⟩,
   (C10_bad_tail_not_checked 4 (logbuffer.mk 1 7 (fun _ => [])) false (some ['x']) ['x']
     clock_zero clock_zero (by decide) (by decide) (by decide)).1⟩

/-- C11 (truncation). Every message line a call of `logbuffer_vlog` stores is
the timestamp text `"[%5lu.%06lu] "` of one of the two clock readings followed
by the formatted text (nothing for a NULL or empty format), cut to
`LOG_BUFFER_ENTRY_SIZE - 1` = 255 bytes, and on return it is the content of
the slot it was stored in. Every line stored, UTC or message, is at most 255
bytes long. No slot other than slot head and slot (head + 1) mod entries, head
being the index on entry, is changed. -/
theorem C11_truncation (entries : Nat) (inst : logbuffer) (suspend : Bool)
    (fmt : Option CStr) (expansion : CStr) (c1 c2 : ClockReading) :
    (∀ e ∈ (logbuffer_vlog entries inst suspend fmt expansion c1 c2).stored, e.utc = false →
        (∃ c : ClockReading, (c = c1 ∨ c = c2)
          ∧ e.line = (mono_stamp c.local_clock
              ++ (if fmt.getD [] = [] then [] else expansion)).take 255)
        ∧ (logbuffer_vlog entries inst suspend fmt expansion c1 c2).inst.buffer e.slot = e.line)
      ∧ (∀ e ∈ (logbuffer_vlog entries inst suspend fmt expansion c1 c2).stored,
          e.line.length ≤ 255)
      ∧ LOG_BUFFER_ENTRY_SIZE - 1 = 255
      ∧ (∀ i : Int, i ≠ inst.logbuffer_head →
          i ≠ (inst.logbuffer_head + 1) % (entries : Int) →
          (logbuffer_vlog entries inst suspend fmt expansion c1 c2).inst.buffer i
            = inst.buffer i) := by
  have h255 : LOG_BUFFER_ENTRY_SIZE - 1 = 255 := by decide
  by_cases hr : inst.logbuffer_head < 0 ∨ inst.logbuffer_head ≥ (entries : Int)
  · rw [vlog_abort entries inst suspend fmt expansion c1 c2 hr]
    refine ⟨?_, ?_, h255, ?_⟩
    · intro e he; simp at he
    · intro e he; simp at he
    · intro i _ _; rfl
  · have hh0 : 0 ≤ inst.logbuffer_head := by omega
    have hh1 : inst.logbuffer_head < (entries : Int) := by omega
    by_cases ht : inst.logbuffer_head = inst.logbuffer_tail
        ∨ inst.logbuffer_head = (entries : Int) - 1 ∨ suspend = true
    · have hst := vlog_framed_stored entries inst suspend fmt expansion c1 c2 hh0 hh1 ht
      have hbuf := vlog_framed_buffer entries inst suspend fmt expansion c1 c2 hh0 hh1 ht
      refine ⟨?_, ?_, h255, ?_⟩
      · intro e he hu
        rw [hst] at he
        simp only [List.mem_cons, List.mem_singleton, List.not_mem_nil, or_false] at he
        rcases he with he | he
        · subst he; simp at hu
        · subst he
          simp only
          refine ⟨⟨c2, Or.inr rfl, msg_line_eq c2 fmt expansion⟩, ?_⟩
          rw [hbuf]
          simp only [if_true]
      · intro e he
        rw [hst] at he
        simp only [List.mem_cons, List.mem_singleton, List.not_mem_nil, or_false] at he
        rcases he with he | he
        · subst he
          simp only
          exact scnprintf_length (utc_text c1)
        · subst he
          simp only
          exact scnprintf_length (msg_text c2 _)
      · intro i h1 h2
        rw [hbuf, if_neg h2, if_neg h1]
    · have hs : suspend = false := by
        cases suspend
        · rfl
        · exact absurd (Or.inr (Or.inr rfl)) ht
      have hne : inst.logbuffer_head ≠ inst.logbuffer_tail := fun e => ht (Or.inl e)
      have hl : inst.logbuffer_head ≠ (entries : Int) - 1 := fun e => ht (Or.inr (Or.inl e))
      subst hs
      by_cases hf : fmt = none ∨ fmt = some []
      · rw [vlog_skip entries inst fmt expansion c1 c2 hne hl hf]
        refine ⟨?_, ?_, h255, ?_⟩
        · intro e he; simp at he
        · intro e he; simp at he
        · intro i _ _; rfl
      · have hst := vlog_plain_stored entries inst fmt expansion c1 c2 hh0 hh1 hne hl
          (fun e => hf (Or.inl e)) (fun e => hf (Or.inr e))
        have hbuf := vlog_plain_buffer entries inst fmt expansion c1 c2 hh0 hh1 hne hl
          (fun e => hf (Or.inl e)) (fun e => hf (Or.inr e))
        refine ⟨?_, ?_, h255, ?_⟩
        · intro e he _
          rw [hst] at he
          simp only [List.mem_singleton] at he
          subst he
          simp only
          refine ⟨⟨c1, Or.inl rfl, msg_line_eq c1 fmt expansion⟩, ?_⟩
          rw [hbuf]
          simp only [if_true]
        · intro e he
          rw [hst] at he
          simp only [List.mem_singleton] at he
          subst he
          simp only
          exact scnprintf_length (msg_text c1 _)
        · intro i h1 _
          rw [hbuf, if_neg h1]

set_option maxRecDepth 8000 in
/-- Witness of C11: a text of 300 bytes written with the format "%s" on 4
slots (head = 1, tail = 0) is stored as a line of exactly 255 bytes. -/
theorem C11_truncation_witness :
    (logbuffer_vlog 4 (logbuffer.mk 1 0 (fun _ => [])) false (some ['%', 's'])
        (List.replicate 300 'x') clock_zero clock_zero).stored.map (fun e => e.line.length)
        = [255]
      ∧ ∀ e ∈ (logbuffer_vlog 4 (logbuffer.mk 1 0 (fun _ => [])) false (some ['%', 's'])
        (List.replicate 300 'x') clock_zero clock_zero).stored, e.line.length ≤ 255 :=
  ⟨by decide,
   (C11_truncation 4 (logbuffer.mk 1 0 (fun _ => [])) false (some ['%', 's'])
     (List.replicate 300 'x') clock_zero clock_zero).2.1⟩

/-- C12, the code at the failing input. On the instance `logbuffer_register`
returns (head = tail = 0, 4 slots), after `logbuffer_suspend` the write of "x"
stores a UTC line and the message line through the branch of line 103, which
does not assign the flag: the flag is still set on return, and the write of
"y" that follows stores a second UTC line before its message line. -/
theorem C12_flag_left_set_on_first_branch :
    logbuffer_suspend false = true
      ∧ (logbuffer_vlog 4 logbuffer_register (logbuffer_suspend false)
          (some ['x']) ['x'] clock_zero clock_zero).stored.map Stored.utc = [true, false]
      ∧ (logbuffer_vlog 4 logbuffer_register (logbuffer_suspend false)
          (some ['x']) ['x'] clock_zero clock_zero).suspend_since_last_logged = true
      ∧ (logbuffer_vlog 4
          (logbuffer_vlog 4 logbuffer_register (logbuffer_suspend false)
            (some ['x']) ['x'] clock_zero clock_zero).inst
          (logbuffer_vlog 4 logbuffer_register (logbuffer_suspend false)
            (some ['x']) ['x'] clock_zero clock_zero).suspend_since_last_logged
          (some ['y']) ['y'] clock_zero clock_zero).stored.map Stored.utc = [true, false] := by
  decide

/-- C13, counterexample. Two instances of 4 slots, both with head = 1 and
tail = 0, share the flag. After one `logbuffer_suspend`, the write on the
first stores a UTC line and clears the flag; the write on the second that
follows stores its message line only, no UTC line. -/
theorem C13_counterexample :
    (logbuffer_vlog 4 (logbuffer.mk 1 0 (fun _ => [])) (logbuffer_suspend false)
        (some ['x']) ['x'] clock_zero clock_zero).stored.map Stored.utc = [true, false]
      ∧ (logbuffer_vlog 4 (logbuffer.mk 1 0 (fun _ => [])) (logbuffer_suspend false)
        (some ['x']) ['x'] clock_zero clock_zero).suspend_since_last_logged = false
      ∧ (logbuffer_vlog 4 (logbuffer.mk 1 0 (fun _ => []))
          (logbuffer_vlog 4 (logbuffer.mk 1 0 (fun _ => [])) (logbuffer_suspend false)
            (some ['x']) ['x'] clock_zero clock_zero).suspend_since_last_logged
          (some ['y']) ['y'] clock_zero clock_zero).stored.map Stored.utc = [false] := by
  decide

/-- C13 as amended (the suspend flag reaches the first writer). Two instances
A and B, heads inside the buffer, share the flag. After one
`logbuffer_suspend`, the write performed first, on A, stores a UTC line. When
that write was entered with A's head != tail and A's head not the last slot
index, it consumes the flag, and the next write on B stores a UTC line exactly
when B itself asks for one: B's head = tail or B's head is the last slot
index. -/
theorem C13_suspend_first_writer (entries : Nat) (instA instB : logbuffer) (s0 : Bool)
    (fmtA : Option CStr) (exA : CStr) (a1 a2 : ClockReading)
    (fmtB : Option CStr) (exB : CStr) (b1 b2 : ClockReading)
    (hA0 : 0 ≤ instA.logbuffer_head) (hA1 : instA.logbuffer_head < (entries : Int))
    (hB0 : 0 ≤ instB.logbuffer_head) (hB1 : instB.logbuffer_head < (entries : Int)) :
    (∃ e ∈ (logbuffer_vlog entries instA (logbuffer_suspend s0) fmtA exA a1 a2).stored,
        e.utc = true)
      ∧ (instA.logbuffer_head ≠ instA.logbuffer_tail →
          instA.logbuffer_head ≠ (entries : Int) - 1 →
          (logbuffer_vlog entries instA (logbuffer_suspend s0) fmtA exA a1
              a2).suspend_since_last_logged = false
            ∧ ((∃ e ∈ (logbuffer_vlog entries instB
                  (logbuffer_vlog entries instA (logbuffer_suspend s0) fmtA exA a1
                    a2).suspend_since_last_logged
                  fmtB exB b1 b2).stored, e.utc = true)
              ↔ (instB.logbuffer_head = instB.logbuffer_tail
                  ∨ instB.logbuffer_head = (entries : Int) - 1))) := by
  have hstA := vlog_framed_stored entries instA (logbuffer_suspend s0) fmtA exA a1 a2 hA0 hA1
    (Or.inr (Or.inr rfl))
  refine ⟨?_, fun hne hl => ?_⟩
  · rw [hstA]
    exact ⟨_, List.mem_cons_self _ _, rfl⟩
  · have hb : ¬ (instA.logbuffer_head = instA.logbuffer_tail
        ∨ instA.logbuffer_head = (entries : Int) - 1) := by tauto
    have hflag : (logbuffer_vlog entries instA (logbuffer_suspend s0) fmtA exA a1
        a2).suspend_since_last_logged = false := by
      rw [vlog_framed entries instA (logbuffer_suspend s0) fmtA exA a1 a2 hA0 hA1
        (Or.inr (Or.inr rfl))]
      simp only [if_neg hb]
    refine ⟨hflag, ?_⟩
    rw [hflag]
    by_cases ht : instB.logbuffer_head = instB.logbuffer_tail
        ∨ instB.logbuffer_head = (entries : Int) - 1
    · have hstB := vlog_framed_stored entries instB false fmtB exB b1 b2 hB0 hB1
        (by tauto)
      rw [hstB]
      exact ⟨fun _ => ht, fun _ => ⟨_, List.mem_cons_self _ _, rfl⟩⟩
    · have hneB : instB.logbuffer_head ≠ instB.logbuffer_tail := fun e => ht (Or.inl e)
      have hlB : instB.logbuffer_head ≠ (entries : Int) - 1 := fun e => ht (Or.inr e)
      refine ⟨fun h => ?_, fun h => absurd h ht⟩
      exfalso
      obtain ⟨e, he, hu⟩ := h
      by_cases hf : fmtB = none ∨ fmtB = some []
      · rw [vlog_skip entries instB fmtB exB b1 b2 hneB hlB hf] at he
        simp at he
      · rw [vlog_plain_stored entries instB fmtB exB b1 b2 hB0 hB1 hneB hlB
          (fun e => hf (Or.inl e)) (fun e => hf (Or.inr e))] at he
        simp only [List.mem_singleton] at he
        subst he
        simp at hu

/-- Witness of C13 as amended: two instances of 4 slots with head = 1,
tail = 0; the write on the second stores no UTC line. -/
theorem C13_suspend_first_writer_witness :
    (0 ≤ (logbuffer.mk 1 0 (fun _ => [])).logbuffer_head
      ∧ (logbuffer.mk 1 0 (fun _ => [])).logbuffer_head < ((4 : Nat) : Int))
    ∧ ((∃ e ∈ (logbuffer_vlog 4 (logbuffer.mk 1 0 (fun _ => []))
            (logbuffer_vlog 4 (logbuffer.mk 1 0 (fun _ => [])) (logbuffer_suspend false)
              (some ['x']) ['x'] clock_zero clock_zero).suspend_since_last_logged
            (some ['y']) ['y'] clock_zero clock_zero).stored, e.utc = true)
        ↔ ((logbuffer.mk 1 0 (fun _ => [])).logbuffer_head
              = (logbuffer.mk 1 0 (fun _ => [])).logbuffer_tail
            ∨ (logbuffer.mk 1 0 (fun _ => [])).logbuffer_head = ((4 : Nat) : Int) - 1)) :=
  ⟨⟨by decide, by decide⟩,
   ((C13_suspend_first_writer 4 (logbuffer.mk 1 0 (fun _ => []))
     (logbuffer.mk 1 0 (fun _ => [])) false (some ['x']) ['x'] clock_zero clock_zero
     (some ['y']) ['y'] clock_zero clock_zero
     (by decide) (by decide) (by decide) (by decide)).2 (by decide) (by decide)).2⟩

/-- C14, counterexample. With 4 slots, the suspend flag never set and the zero
clock, the writes "a" ... "e" store seven lines in slots 0, 1, 2, 3, 0, 1, 2:
the write of "c" puts a UTC line in slot 3 and its message line in slot 0, the
message line of "d" goes to slot 1, and the final read prints three lines, not
four. -/
theorem C14_counterexample :
    (run 4 (Sys.mk logbuffer_register false) writes_abcde).2.map
        (fun e => (e.slot, e.utc))
        = [(0, true), (1, false), (2, false), (3, true), (0, false), (1, false), (2, false)]
      ∧ (logbuffer_seq_show 4 4
          (run 4 (Sys.mk logbuffer_register false) writes_abcde).1.inst).map
            (fun p => p.2.length) = some 3 := by
  decide

/-- C14 as amended (concrete scenario). With 4 slots and the suspend flag never
set, whatever the clocks read, the writes "a", "b", "c", "d", "e" on the
instance `logbuffer_register` returns store, in this order: a UTC line in
slot 0 and the line of "a" in slot 1 (first write, two lines); the line of "b"
in slot 2; a UTC line in slot 3 and the line of "c" in slot 0 (head was the
last slot index); the line of "d" in slot 1; the line of "e" in slot 2. The
final read prints exactly 3 lines, those of "c", "d" and "e" in this order, so
its last two are the "d" line and then the "e" line. -/
theorem C14_concrete_scenario (a1 a2 b1 b2 c1 c2 d1 d2 e1 e2 : ClockReading) :
    (run 4 (Sys.mk logbuffer_register false)
        (writes_abcde_at a1 a2 b1 b2 c1 c2 d1 d2 e1 e2)).2
        = [Stored.mk 0 (scnprintf LOG_BUFFER_ENTRY_SIZE (utc_text a1)) true,
           Stored.mk 1 (scnprintf LOG_BUFFER_ENTRY_SIZE (msg_text a2 ['a'])) false,
           Stored.mk 2 (scnprintf LOG_BUFFER_ENTRY_SIZE (msg_text b1 ['b'])) false,
           Stored.mk 3 (scnprintf LOG_BUFFER_ENTRY_SIZE (utc_text c1)) true,
           Stored.mk 0 (scnprintf LOG_BUFFER_ENTRY_SIZE (msg_text c2 ['c'])) false,
           Stored.mk 1 (scnprintf LOG_BUFFER_ENTRY_SIZE (msg_text d1 ['d'])) false,
           Stored.mk 2 (scnprintf LOG_BUFFER_ENTRY_SIZE (msg_text e1 ['e'])) false]
      ∧ (logbuffer_seq_show 4 4
          (run 4 (Sys.mk logbuffer_register false)
            (writes_abcde_at a1 a2 b1 b2 c1 c2 d1 d2 e1 e2)).1.inst).map Prod.snd
        = some [scnprintf LOG_BUFFER_ENTRY_SIZE (msg_text c2 ['c']) ++ ['\n'],
                scnprintf LOG_BUFFER_ENTRY_SIZE (msg_text d1 ['d']) ++ ['\n'],
                scnprintf LOG_BUFFER_ENTRY_SIZE (msg_text e1 ['e']) ++ ['\n']] := by
  have t1 : Int.tmod 1 4 = 1 := by decide
  have t2 : Int.tmod 2 4 = 2 := by decide
  have t3 : Int.tmod 3 4 = 3 := by decide
  have t4 : Int.tmod 4 4 = 0 := by decide
  constructor
  · simp [run, step, writes_abcde_at, logbuffer_vlog, __logbuffer_log, logbuffer_register,
      vsnprintf, LOG_BUFFER_ENTRY_SIZE, t1, t2, t3, t4]
  · simp [run, step, writes_abcde_at, logbuffer_vlog, __logbuffer_log, logbuffer_register,
      vsnprintf, LOG_BUFFER_ENTRY_SIZE, logbuffer_seq_show, seq_show_loop, t1, t2, t3, t4]

/-- C16 (per-entry index update). A call of `logbuffer_vlog` entered with head
and tail inside the buffer stores k lines, k being 0, 1 or 2; the i-th of them
goes to slot (head + i) mod entries, head being the index on entry; on return
the head is (head + k) mod entries, and the tail is (tail + d) mod entries,
where d counts the stores after which the advanced head was equal to the tail
(each of them drops the one oldest line); d is at most k. -/
theorem C16_per_entry_index_update (entries : Nat) (inst : logbuffer) (suspend : Bool)
    (fmt : Option CStr) (expansion : CStr) (c1 c2 : ClockReading)
    (hh0 : 0 ≤ inst.logbuffer_head) (hh1 : inst.logbuffer_head < (entries : Int))
    (ht0 : 0 ≤ inst.logbuffer_tail) (ht1 : inst.logbuffer_tail < (entries : Int)) :
    (logbuffer_vlog entries inst suspend fmt expansion c1 c2).stored.length ≤ 2
      ∧ (logbuffer_vlog entries inst suspend fmt expansion c1 c2).stored.map Stored.slot
        = (List.range (logbuffer_vlog entries inst suspend fmt expansion c1 c2).stored.length).map
            (fun (i : Nat) => (inst.logbuffer_head + (i : Int)) % (entries : Int))
      ∧ (logbuffer_vlog entries inst suspend fmt expansion c1 c2).inst.logbuffer_head
        = (inst.logbuffer_head
            + ((logbuffer_vlog entries inst suspend fmt expansion c1 c2).stored.length : Int))
          % (entries : Int)
      ∧ (logbuffer_vlog entries inst suspend fmt expansion c1 c2).inst.logbuffer_tail
        = (inst.logbuffer_tail
            + ((dropped_entries entries
                (logbuffer_vlog entries inst suspend fmt expansion c1 c2).stored.length
                inst.logbuffer_head inst.logbuffer_tail : Nat) : Int))
          % (entries : Int)
      ∧ dropped_entries entries
          (logbuffer_vlog entries inst suspend fmt expansion c1 c2).stored.length
          inst.logbuffer_head inst.logbuffer_tail
        ≤ (logbuffer_vlog entries inst suspend fmt expansion c1 c2).stored.length := by
  have hmh : inst.logbuffer_head % (entries : Int) = inst.logbuffer_head :=
    Int.emod_eq_of_lt hh0 hh1
  have hmt : inst.logbuffer_tail % (entries : Int) = inst.logbuffer_tail :=
    Int.emod_eq_of_lt ht0 ht1
  by_cases ht : inst.logbuffer_head = inst.logbuffer_tail
      ∨ inst.logbuffer_head = (entries : Int) - 1 ∨ suspend = true
  · have hst := vlog_framed_stored entries inst suspend fmt expansion c1 c2 hh0 hh1 ht
    have hhd := vlog_framed_head entries inst suspend fmt expansion c1 c2 hh0 hh1 ht
    have htl := vlog_framed_tail entries inst suspend fmt expansion c1 c2 hh0 hh1 ht
    rw [hst, hhd, htl]
    simp only [List.length_cons, List.length_nil, List.map_cons, List.map_nil,
      List.range_succ, List.range_zero, List.nil_append, List.cons_append, dropped_entries,
      emod_succ_succ]
    refine ⟨by omega, ?_, ?_, ?_, ?_⟩
    · simp [hmh]
    · simp
    · by_cases a : (inst.logbuffer_head + 1) % (entries : Int) = inst.logbuffer_tail
      · have b : (inst.logbuffer_head + 2) % (entries : Int)
            = (inst.logbuffer_tail + 1) % (entries : Int) := by
          rw [← emod_succ_succ, a]
        simp only [a, b, if_true, emod_succ_succ]
        rfl
      · by_cases b : (inst.logbuffer_head + 2) % (entries : Int) = inst.logbuffer_tail
        · simp only [a, b, if_true, if_false]
          rfl
        · simp only [a, b, if_false]
          simpa using hmt.symm
    · split_ifs <;> omega
  · have hs : suspend = false := by
      cases suspend
      · rfl
      · exact absurd (Or.inr (Or.inr rfl)) ht
    have hne : inst.logbuffer_head ≠ inst.logbuffer_tail := fun e => ht (Or.inl e)
    have hl : inst.logbuffer_head ≠ (entries : Int) - 1 := fun e => ht (Or.inr (Or.inl e))
    subst hs
    by_cases hf : fmt = none ∨ fmt = some []
    · rw [vlog_skip entries inst fmt expansion c1 c2 hne hl hf]
      simp [dropped_entries, hmh, hmt]
    · have hf1 : fmt ≠ none := fun e => hf (Or.inl e)
      have hf2 : fmt ≠ some [] := fun e => hf (Or.inr e)
      rw [vlog_plain_stored entries inst fmt expansion c1 c2 hh0 hh1 hne hl hf1 hf2,
        vlog_plain_head entries inst fmt expansion c1 c2 hh0 hh1 hne hl hf1 hf2,
        vlog_plain_tail entries inst fmt expansion c1 c2 hh0 hh1 hne hl hf1 hf2]
      simp only [List.length_cons, List.length_nil, List.map_cons, List.map_nil,
        List.range_succ, List.range_zero, List.nil_append, dropped_entries]
      refine ⟨by omega, ?_, ?_, ?_, ?_⟩
      · simp [hmh]
      · simp
      · by_cases a : (inst.logbuffer_head + 1) % (entries : Int) = inst.logbuffer_tail
        · simp only [a, if_true]
          rfl
        · simp only [a, if_false]
          simpa using hmt.symm
      · split_ifs <;> omega

/-- Witness of C16: 4 slots, head = 3, tail = 0 (full window): two lines are
stored, in slots 3 and 0, and two old lines are dropped. -/
theorem C16_per_entry_index_update_witness :
    (0 ≤ (logbuffer.mk 3 0 (fun _ => [])).logbuffer_head
      ∧ (logbuffer.mk 3 0 (fun _ => [])).logbuffer_head < ((4 : Nat) : Int)
      ∧ 0 ≤ (logbuffer.mk 3 0 (fun _ => [])).logbuffer_tail
      ∧ (logbuffer.mk 3 0 (fun _ => [])).logbuffer_tail < ((4 : Nat) : Int))
    ∧ (logbuffer_vlog 4 (logbuffer.mk 3 0 (fun _ => [])) false (some ['x']) ['x']
          clock_zero clock_zero).stored.map Stored.slot = [3, 0]
    ∧ dropped_entries 4 2 3 0 = 2
    ∧ (logbuffer_vlog 4 (logbuffer.mk 3 0 (fun _ => [])) false (some ['x']) ['x']
          clock_zero clock_zero).inst.logbuffer_tail = 2
    ∧ (logbuffer_vlog 4 (logbuffer.mk 3 0 (fun _ => [])) false (some ['x']) ['x']
          clock_zero clock_zero).stored.length ≤ 2 :=
  ⟨⟨by decide, by decide, by decide, by decide⟩, by decide, by decide, by decide,
   (C16_per_entry_index_update 4 (logbuffer.mk 3 0 (fun _ => [])) false (some ['x']) ['x']
     clock_zero clock_zero (by decide) (by decide) (by decide) (by decide)).1⟩

/-- C17 (effective capacity is capacity - 1). From the instance
`logbuffer_register` returns, after every finite sequence of writes, suspend
notifications and reads on a buffer with at least one slot, if k lines (UTC
and message lines together) have been stored so far, then
(head - tail) mod entries = min(k, entries - 1), `logbuffer_seq_show` prints
exactly that many lines, and that is fewer than `entries`: the buffer never
holds `entries` readable lines. -/
theorem C17_effective_capacity (entries : Nat) (hn : 0 < entries) (suspend : Bool)
    (ops : List Op) (fuel : Nat) (hf : entries ≤ fuel) :
    (((run entries (Sys.mk logbuffer_register suspend) ops).1.inst.logbuffer_head
          - (run entries (Sys.mk logbuffer_register suspend) ops).1.inst.logbuffer_tail)
        % (entries : Int)).toNat
        = min (run entries (Sys.mk logbuffer_register suspend) ops).2.length (entries - 1)
      ∧ (logbuffer_seq_show entries fuel
            (run entries (Sys.mk logbuffer_register suspend) ops).1.inst).map
          (fun p => p.2.length)
        = some (min (run entries (Sys.mk logbuffer_register suspend) ops).2.length
            (entries - 1))
      ∧ min (run entries (Sys.mk logbuffer_register suspend) ops).2.length (entries - 1)
        < entries := by
  have h := ringInv_run entries ops (Sys.mk logbuffer_register suspend) []
    (ringInv_register entries hn)
  simp only [List.nil_append] at h
  obtain ⟨hh0, hh1, ht0, ht1, hw⟩ := h
  have hlen : (snapshot_spec entries
      (run entries (Sys.mk logbuffer_register suspend) ops).1.inst).length
      = min (run entries (Sys.mk logbuffer_register suspend) ops).2.length (entries - 1) := by
    rw [hw, List.length_drop, List.length_map]
    omega
  refine ⟨?_, ?_, by omega⟩
  · rw [← snapshot_spec_length]
    exact hlen
  · rw [seq_show_eq_spec entries fuel _ hh0 hh1 ht0 ht1 hf]
    simp only [Option.map_some', List.length_map, hlen]

/-- Witness of C17: 4 slots and the five writes "a" ... "e": seven lines
stored, three readable. -/
theorem C17_effective_capacity_witness :
    (0 < 4 ∧ 4 ≤ 4)
    ∧ (run 4 (Sys.mk logbuffer_register false) writes_abcde).2.length = 7
    ∧ (logbuffer_seq_show 4 4
          (run 4 (Sys.mk logbuffer_register false) writes_abcde).1.inst).map
        (fun p => p.2.length)
      = some (min (run 4 (Sys.mk logbuffer_register false) writes_abcde).2.length (4 - 1)) :=
  ⟨⟨by decide, by decide⟩, by decide,
   (C17_effective_capacity 4 (by decide) false writes_abcde 4 (by decide)).2.1⟩

/-- C18 (never empty again). On a buffer with at least two slots: a call of
`logbuffer_vlog` entered with head and tail inside the buffer that stores at
least one line returns with head != tail. Hence, from the instance
`logbuffer_register` returns (head = tail = 0): as long as no write has been
made the buffer is empty, so the first write meets head = tail; and after any
sequence of calls with at least one write in it head != tail, so no later
write meets head = tail. -/
theorem C18_never_empty_again (entries : Nat) (h2 : 2 ≤ entries) :
    (∀ (inst : logbuffer) (suspend : Bool) (fmt : Option CStr) (expansion : CStr)
        (c1 c2 : ClockReading),
        0 ≤ inst.logbuffer_head → inst.logbuffer_head < (entries : Int) →
        0 ≤ inst.logbuffer_tail → inst.logbuffer_tail < (entries : Int) →
        (logbuffer_vlog entries inst suspend fmt expansion c1 c2).stored ≠ [] →
        (logbuffer_vlog entries inst suspend fmt expansion c1 c2).inst.logbuffer_head
          ≠ (logbuffer_vlog entries inst suspend fmt expansion c1 c2).inst.logbuffer_tail)
      ∧ (∀ (suspend : Bool) (ops : List Op), (∀ op ∈ ops, op.is_log = false) →
          (run entries (Sys.mk logbuffer_register suspend) ops).1.inst.logbuffer_head
            = (run entries (Sys.mk logbuffer_register suspend) ops).1.inst.logbuffer_tail)
      ∧ (∀ (suspend : Bool) (ops : List Op), (∃ op ∈ ops, op.is_log = true) →
          (run entries (Sys.mk logbuffer_register suspend) ops).1.inst.logbuffer_head
            ≠ (run entries (Sys.mk logbuffer_register suspend) ops).1.inst.logbuffer_tail) := by
  refine ⟨?_, ?_, ?_⟩
  · intro inst suspend fmt expansion c1 c2 hh0 hh1 _ _ hst
    exact vlog_head_ne_tail entries inst suspend fmt expansion c1 c2 h2 hh0 hh1 hst
  · intro suspend ops h
    rw [run_no_log_inst entries ops (Sys.mk logbuffer_register suspend) h]
    rfl
  · intro suspend ops h
    exact run_nonempty entries h2 ops (Sys.mk logbuffer_register suspend) []
      (ringInv_register entries (by omega)) (Or.inr h)

/-- Witness of C18: 4 slots; a suspend, the write of "x", an empty write and a
read leave head != tail. -/
theorem C18_never_empty_again_witness :
    2 ≤ 4
    ∧ (run 4 (Sys.mk logbuffer_register false)
        [Op.suspend, Op.log (some ['x']) ['x'] clock_zero clock_zero,
         Op.log none [] clock_zero clock_zero, Op.seq_show]).1.inst.logbuffer_head
      ≠ (run 4 (Sys.mk logbuffer_register false)
        [Op.suspend, Op.log (some ['x']) ['x'] clock_zero clock_zero,
         Op.log none [] clock_zero clock_zero, Op.seq_show]).1.inst.logbuffer_tail :=
  ⟨by decide,
   (C18_never_empty_again 4 (by decide)).2.2 false _
     ⟨Op.log (some ['x']) ['x'] clock_zero clock_zero, by simp, rfl⟩⟩

/-- C19 (a wrap carries a calendar anchor). For a call of `logbuffer_vlog`
entered with the head inside the buffer: if the head on return is smaller than
the head on entry, the call stored a UTC line, in slot head, and that slot is
the last or the last but one (entries - 1 or entries - 2), where it still is on
return. A call that stores a plain message line only returns with the head
advanced by one, not wrapped. -/
theorem C19_wrap_carries_utc (entries : Nat) (inst : logbuffer) (suspend : Bool)
    (fmt : Option CStr) (expansion : CStr) (c1 c2 : ClockReading)
    (hh0 : 0 ≤ inst.logbuffer_head) (hh1 : inst.logbuffer_head < (entries : Int)) :
    ((logbuffer_vlog entries inst suspend fmt expansion c1 c2).inst.logbuffer_head
        < inst.logbuffer_head →
        (logbuffer_vlog entries inst suspend fmt expansion c1 c2).stored
          = [Stored.mk inst.logbuffer_head
               (scnprintf LOG_BUFFER_ENTRY_SIZE (utc_text c1)) true,
             Stored.mk ((inst.logbuffer_head + 1) % (entries : Int))
               (scnprintf LOG_BUFFER_ENTRY_SIZE
                 (msg_text c2 (vsnprintf LOG_BUFFER_ENTRY_SIZE (fmt.getD []) expansion)))
               false]
        ∧ (inst.logbuffer_head = (entries : Int) - 1
            ∨ inst.logbuffer_head = (entries : Int) - 2)
        ∧ (logbuffer_vlog entries inst suspend fmt expansion c1 c2).inst.buffer
            inst.logbuffer_head = scnprintf LOG_BUFFER_ENTRY_SIZE (utc_text c1))
      ∧ ((logbuffer_vlog entries inst suspend fmt expansion c1 c2).stored.map Stored.utc
          = [false] →
        (logbuffer_vlog entries inst suspend fmt expansion c1 c2).inst.logbuffer_head
          = inst.logbuffer_head + 1) := by
  by_cases ht : inst.logbuffer_head = inst.logbuffer_tail
      ∨ inst.logbuffer_head = (entries : Int) - 1 ∨ suspend = true
  · have hst := vlog_framed_stored entries inst suspend fmt expansion c1 c2 hh0 hh1 ht
    have hhd := vlog_framed_head entries inst suspend fmt expansion c1 c2 hh0 hh1 ht
    have hbuf := vlog_framed_buffer entries inst suspend fmt expansion c1 c2 hh0 hh1 ht
      inst.logbuffer_head
    have hw1 := emod_window (inst.logbuffer_head + 1) entries (by omega) (by omega)
    refine ⟨fun hlt => ?_, fun hu => ?_⟩
    · rw [hhd] at hlt
      have hn2 : 2 ≤ entries := by
        by_contra hc
        have h1 : entries = 1 := by omega
        subst h1
        simp only [Nat.cast_one, Int.emod_one] at hlt
        omega
      have hw2 := emod_window (inst.logbuffer_head + 2) entries (by omega) (by omega)
      refine ⟨hst, by omega, ?_⟩
      rw [hbuf, if_neg (by omega), if_pos rfl]
    · rw [hst] at hu
      simp at hu
  · have hs : suspend = false := by
      cases suspend
      · rfl
      · exact absurd (Or.inr (Or.inr rfl)) ht
    have hne : inst.logbuffer_head ≠ inst.logbuffer_tail := fun e => ht (Or.inl e)
    have hl : inst.logbuffer_head ≠ (entries : Int) - 1 := fun e => ht (Or.inr (Or.inl e))
    subst hs
    by_cases hf : fmt = none ∨ fmt = some []
    · rw [vlog_skip entries inst fmt expansion c1 c2 hne hl hf]
      refine ⟨fun hlt => ?_, fun hu => ?_⟩
      · simp at hlt
      · simp at hu
    · have hhd := vlog_plain_head entries inst fmt expansion c1 c2 hh0 hh1 hne hl
        (fun e => hf (Or.inl e)) (fun e => hf (Or.inr e))
      have hw1 := emod_window (inst.logbuffer_head + 1) entries (by omega) (by omega)
      refine ⟨fun hlt => ?_, fun _ => ?_⟩
      · rw [hhd] at hlt
        omega
      · rw [hhd]
        omega

/-- Witness of C19: 4 slots, head = 3, tail = 1; the head returns as 1 and the
UTC line is in slot 3. -/
theorem C19_wrap_carries_utc_witness :
    (0 ≤ (logbuffer.mk 3 1 (fun _ => [])).logbuffer_head
      ∧ (logbuffer.mk 3 1 (fun _ => [])).logbuffer_head < ((4 : Nat) : Int)
      ∧ (logbuffer_vlog 4 (logbuffer.mk 3 1 (fun _ => [])) false (some ['x']) ['x']
            clock_zero clock_zero).inst.logbuffer_head
          < (logbuffer.mk 3 1 (fun _ => [])).logbuffer_head)
    ∧ ((logbuffer.mk 3 1 (fun _ => [])).logbuffer_head = ((4 : Nat) : Int) - 1
        ∨ (logbuffer.mk 3 1 (fun _ => [])).logbuffer_head = ((4 : Nat) : Int) - 2) :=
  ⟨⟨by decide, by decide, by decide⟩,
   ((C19_wrap_carries_utc 4 (logbuffer.mk 3 1 (fun _ => [])) false (some ['x']) ['x']
     clock_zero clock_zero (by decide) (by decide)).1 (by decide)).2.1⟩


end Logbuffer
